import Mathlib

/-!
Trace aggregation in `profiler.cc`.

A shallow embedding of the signal handler `Profiler::Handle`, of the hash
`CalculateHash` it uses, of `Profiler::Start`, and of the comparator and the
sort of `Profiler::DumpToFile`, followed by theorems about single invocations,
about sequences of non-overlapping invocations, and about two invocations that
increment a failure counter at the same time.

Modelling conventions.

* `globals.h` and `stacktraces.h` are not part of the sources at hand, so the
  constants `kMaxStackTraces`, `kMaxFramesToCapture` and `kNumCallTraceErrors`
  are fields of a parameter record `Globals`.
* Arrays are functions from indices; only indices inside the array are read.
* `uint64_t` arithmetic is arithmetic on `Nat` reduced modulo `2 ^ 64`. Frame
  counts and line numbers are `jint` values, integers from `-2 ^ 31` up to
  `2 ^ 31 - 1`. The negation `-trace.num_frames` is the negation of integers;
  the signed overflow that the least `jint` alone would cause is not modelled.
* The elements of `failures_` are 32-bit `int` counters: `failures_[k]++` at
  `2147483647` leaves `-2147483648`. The counter `traces_[i].count` is an
  `intptr_t` of 64 bits that changes by `+1` per invocation; it is modelled as
  an integer without a width.
* The capture is called with the depth `kMaxFramesToCapture`; a frame count
  above it, with which the copy loop would leave its row, is outside the
  hypotheses of every theorem.
* In `Handle` and `run` invocations are sequential: a compare-and-swap that
  finds the expected value succeeds. Only `interleave` lets invocations overlap,
  in the one statement `failures_[k]++`.
* The value `Outcome` returned next to the state records which `return` of the
  handler was taken; the handler itself returns `void`.
-/

namespace LJP

set_option maxRecDepth 100000

/-- Constants that the handler takes from `globals.h` and `stacktraces.h`. -/
structure Globals where
  kMaxStackTraces : Nat
  kMaxFramesToCapture : Nat
  kNumCallTraceErrors : Nat

/-- One `JVMPI_CallFrame`: a `jint` line number and a method id (an address). -/
structure JVMPI_CallFrame where
  lineno : Int
  method_id : Nat
deriving DecidableEq

/-- A frame all of whose bytes are zero. -/
def zeroFrame : JVMPI_CallFrame := ⟨0, 0⟩

/-- The local `trace` of the handler after the capture call: the frame count
the capture stored and the contents of the local array `frames`. -/
structure JVMPI_CallTrace where
  num_frames : Int
  frames : Nat → JVMPI_CallFrame

/-- One element of `traces_`: `count`, `trace.num_frames`, and `trace.frames`,
which is either null or the address of a row of `frame_buffer_`. -/
structure TraceData where
  count : Int
  num_frames : Int
  frames : Option Nat
deriving DecidableEq

/-- The static tables of class `Profiler`. -/
structure Profiler where
  traces_ : Nat → TraceData
  frame_buffer_ : Nat → Nat → JVMPI_CallFrame
  failures_ : Nat → Int

/-- Which exit of `Profiler::Handle` an invocation took: the `return` of line
65 (`notAttached`), of line 89 (`ignored`), of line 116 after slot `i` was
claimed (`inserted i`), of line 123 after the count of slot `i` was incremented
(`aggregated i`), or the end of the loop (`dropped`). Two more values mark
executions that leave the defined behaviour or the bound of the model, where
the model stops with the state as it was: `memcmp` through a null
`trace.frames` at slot `i` (`nullFrames i`), and a loop that has used up its
bound on the number of iterations (`outOfFuel`). -/
inductive Outcome where
  | notAttached
  | ignored
  | nullFrames (i : Nat)
  | inserted (i : Nat)
  | aggregated (i : Nat)
  | dropped
  | outOfFuel
deriving DecidableEq

/-- Reduction of a natural number to `uint64_t`. -/
def u64 (n : Nat) : Nat := n % 2 ^ 64

/-- The conversion `static_cast<uintptr_t>` of a `jint`: sign extension. -/
def uintptrOfJint (x : Int) : Nat := (x % 2 ^ 64).toNat

/-- Two statements `h += h << k; h ^= h >> r;` on a `uint64_t`. -/
def mixShift (k r h : Nat) : Nat :=
  let h1 := u64 (h + u64 (h <<< k))
  h1 ^^^ (h1 >>> r)

/-- The body of the loop of `CalculateHash` for one frame. -/
def hashStep (h : Nat) (f : JVMPI_CallFrame) : Nat :=
  let h1 := mixShift 10 6 (u64 (h + u64 f.method_id))
  mixShift 10 6 (u64 (h1 + uintptrOfJint f.lineno))

/-- The function `CalculateHash(trace, skip)`. -/
def CalculateHash (trace : JVMPI_CallTrace) (skip : Nat) : Nat :=
  let h := ((List.range trace.num_frames.toNat).drop skip).foldl
    (fun h i => hashStep h (trace.frames i)) 0
  mixShift 3 11 h

/-- Reduction of an integer to the range of a 32-bit `int`, from `-2 ^ 31` up
to `2 ^ 31 - 1`. -/
def wrapInt32 (x : Int) : Int := (x + 2 ^ 31) % 2 ^ 32 - 2 ^ 31

/-- The comparison `memcmp(a, b, sizeof(JVMPI_CallFrame) * kMaxFramesToCapture) == 0`
on two arrays whose padding bytes are zero. -/
def memcmpEq (g : Globals) (a b : Nat → JVMPI_CallFrame) : Bool :=
  (List.range g.kMaxFramesToCapture).all (fun k => decide (a k = b k))

/-- Modelled from the spec: `NoBarrier_CompareAndSwap(ptr, old_value, new_value)`
is declared in a header that is not among the sources; the spec describes its
use as an "atomic compare-and-swap of occurrenceCount from 0 to 1". Given the
content of the cell, the result is the value found there (the return value)
and the content left in the cell: `new_value` when `old_value` was found, the
old content otherwise. -/
def NoBarrier_CompareAndSwap (cell old_value new_value : Int) : Int × Int :=
  (cell, if cell = old_value then new_value else cell)

/-- Modelled from the spec: `NoBarrier_AtomicIncrement(ptr, increment)` is
declared in a header that is not among the sources; the spec describes its use
as "atomically increment occurrenceCount". The result is the new content of
the cell. -/
def NoBarrier_AtomicIncrement (cell increment : Int) : Int :=
  cell + increment

/-- The inner copy loop of the handler (lines 104-112): frame `frame_num` of
the row is cleared and then receives the two fields of the captured frame. -/
def copyFrames (trace : JVMPI_CallTrace) (fb : Nat → JVMPI_CallFrame) : Nat → JVMPI_CallFrame :=
  (List.range trace.num_frames.toNat).foldl
    (fun row frame_num =>
      Function.update row frame_num ⟨(trace.frames frame_num).lineno, (trace.frames frame_num).method_id⟩)
    fb

/-- Lines 101-116: the compare-and-swap stores its new value in `count` of
slot `i`, the row `i` of `frame_buffer_` is filled, and `trace.frames`,
`trace.num_frames` of the slot are set. -/
def claimSlot (s : Profiler) (trace : JVMPI_CallTrace) (i : Nat) : Profiler :=
  { s with
    traces_ := Function.update s.traces_ i
      ⟨(NoBarrier_CompareAndSwap (s.traces_ i).count 0 1).2, trace.num_frames, some i⟩
    frame_buffer_ := Function.update s.frame_buffer_ i (copyFrames trace (s.frame_buffer_ i)) }

/-- Line 122: `NoBarrier_AtomicIncrement(&(traces_[i].count), 1)`. -/
def incrementSlot (s : Profiler) (i : Nat) : Profiler :=
  { s with
    traces_ := Function.update s.traces_ i
      { s.traces_ i with count := NoBarrier_AtomicIncrement (s.traces_ i).count 1 } }

/-- What one iteration of the `do`-loop finds at slot `i`. -/
inductive SlotTest where
  | free
  | nullDeref
  | same
  | other
deriving DecidableEq

/-- The two tests of the loop body (lines 101 and 119-121) at slot `i`. -/
def slotTest (g : Globals) (s : Profiler) (trace : JVMPI_CallTrace) (i : Nat) : SlotTest :=
  if (s.traces_ i).count = 0 ∧ (NoBarrier_CompareAndSwap (s.traces_ i).count 0 1).1 = 0 then
    SlotTest.free
  else if (s.traces_ i).num_frames = trace.num_frames then
    match (s.traces_ i).frames with
    | none => SlotTest.nullDeref
    | some r => if memcmpEq g (s.frame_buffer_ r) trace.frames then SlotTest.same else SlotTest.other
  else SlotTest.other

/-- The `do { ... } while (i != idx)` loop of the handler, with a bound on the
number of iterations; `probe_cases` shows that the bound `kMaxStackTraces`
given by `probe` is never used up. -/
def probeLoop (g : Globals) (s : Profiler) (trace : JVMPI_CallTrace) (idx : Nat) :
    Nat → Nat → Profiler × Outcome
  | 0, _ => (s, Outcome.outOfFuel)
  | fuel + 1, i =>
    match slotTest g s trace i with
    | SlotTest.free => (claimSlot s trace i, Outcome.inserted i)
    | SlotTest.nullDeref => (s, Outcome.nullFrames i)
    | SlotTest.same => (incrementSlot s i, Outcome.aggregated i)
    | SlotTest.other =>
      if (i + 1) % g.kMaxStackTraces = idx then (s, Outcome.dropped)
      else probeLoop g s trace idx fuel ((i + 1) % g.kMaxStackTraces)

/-- Lines 94-127: hash, start index and probing loop. -/
def probe (g : Globals) (s : Profiler) (trace : JVMPI_CallTrace) : Profiler × Outcome :=
  let idx := CalculateHash trace 0 % g.kMaxStackTraces
  probeLoop g s trace idx g.kMaxStackTraces idx

/-- The statement `failures_[k]++` on the `int` array `failures_`. -/
def bumpFailure (s : Profiler) (k : Nat) : Profiler :=
  { s with failures_ := Function.update s.failures_ k (wrapInt32 (s.failures_ k + 1)) }

/-- The handler `Profiler::Handle`. `env` tells whether `CurrentJniEnv()` is
non-null, `trace` is what the capture leaves in the local `trace` when it is
called. The index `idx = -trace.num_frames` of line 87 is the negation of
integers. -/
def Handle (g : Globals) (s : Profiler) (env : Bool) (trace : JVMPI_CallTrace) :
    Profiler × Outcome :=
  if env = false then (bumpFailure s 0, Outcome.notAttached)
  else if trace.num_frames < 0 then
    let idx := -trace.num_frames
    if idx > (g.kNumCallTraceErrors : Int) then (s, Outcome.ignored)
    else probe g (bumpFailure s idx.toNat) trace
  else probe g s trace

/-- The three `memset` calls of `Profiler::Start`. -/
def cleared : Profiler :=
  { traces_ := fun _ => ⟨0, 0, none⟩
    frame_buffer_ := fun _ _ => zeroFrame
    failures_ := fun _ => 0 }

/-- The function `Profiler::Start`: the tables are cleared, the result of
`SetAction` is stored and not inspected, and the result of
`SetSigprofInterval` is returned. -/
def Start (setActionOk setSigprofIntervalOk : Bool) : Profiler × Bool :=
  (cleared, setSigprofIntervalOk)

/-- A buffer that holds the frames of `l` and zero bytes after them. -/
def bufferOf (l : List JVMPI_CallFrame) : Nat → JVMPI_CallFrame :=
  fun k => l.getD k zeroFrame

/-- The local `trace` after a capture that stored the frames of `l` in the
cleared array and their number in `num_frames`. -/
def traceOf (l : List JVMPI_CallFrame) : JVMPI_CallTrace :=
  ⟨l.length, bufferOf l⟩

/-- The result of the loop when it leaves at slot `i`. -/
def stopAt (g : Globals) (s : Profiler) (trace : JVMPI_CallTrace) (i : Nat) : Profiler × Outcome :=
  match slotTest g s trace i with
  | SlotTest.free => (claimSlot s trace i, Outcome.inserted i)
  | SlotTest.nullDeref => (s, Outcome.nullFrames i)
  | SlotTest.same => (incrementSlot s i, Outcome.aggregated i)
  | SlotTest.other => (s, Outcome.dropped)

/-- The slot at which the hash of `trace` starts the probing. -/
def startSlot (g : Globals) (trace : JVMPI_CallTrace) : Nat :=
  CalculateHash trace 0 % g.kMaxStackTraces

/-- Sequential invocations of the handler, the oldest first; each element
gives the attach state of the interrupted thread and the result of the capture. -/
def run (g : Globals) (s : Profiler) : List (Bool × JVMPI_CallTrace) → Profiler
  | [] => s
  | x :: l => run g (Handle g s x.1 x.2).1 l

/-- The exits taken by the invocations of `run`, the oldest first. -/
def runLog (g : Globals) (s : Profiler) : List (Bool × JVMPI_CallTrace) → List Outcome
  | [] => []
  | x :: l => (Handle g s x.1 x.2).2 :: runLog g (Handle g s x.1 x.2).1 l

/-- Invocations on an attached thread with the given capture results. -/
def attached (l : List JVMPI_CallTrace) : List (Bool × JVMPI_CallTrace) :=
  l.map (fun t => (true, t))

/-- A capture that succeeded: the frame count is between 0 and the depth
`kMaxFramesToCapture` passed to the capture, and the capture wrote only that
many entries of the array that the handler had cleared. -/
def Captured (g : Globals) (t : JVMPI_CallTrace) : Prop :=
  0 ≤ t.num_frames ∧ t.num_frames ≤ (g.kMaxFramesToCapture : Int) ∧
    ∀ k : Nat, k < g.kMaxFramesToCapture → t.num_frames ≤ (k : Int) → t.frames k = zeroFrame

/-- Slot `i` holds the frame count and the frames of `t`: its `trace.num_frames`
is that of `t`, its `trace.frames` is the address of row `i` of `frame_buffer_`
(as line 114 sets it), and the first `num_frames` entries of that row are the
frames of `t`. -/
def Holds (s : Profiler) (i : Nat) (t : JVMPI_CallTrace) : Prop :=
  (s.traces_ i).num_frames = t.num_frames ∧ (s.traces_ i).frames = some i ∧
    ∀ k : Nat, k < t.num_frames.toNat → s.frame_buffer_ i k = t.frames k

instance (s : Profiler) (i : Nat) (t : JVMPI_CallTrace) : Decidable (Holds s i t) := by
  unfold Holds
  infer_instance

/-- Two traces have the same frame count and field-wise equal frames. -/
def SameTrace (t u : JVMPI_CallTrace) : Prop :=
  t.num_frames = u.num_frames ∧ ∀ k : Nat, k < t.num_frames.toNat → t.frames k = u.frames k

instance (t u : JVMPI_CallTrace) : Decidable (SameTrace t u) := by
  unfold SameTrace
  infer_instance

/-- The sum of `count` over the slots of `traces_`. -/
def totalCount (g : Globals) (s : Profiler) : Int :=
  ∑ i ∈ Finset.range g.kMaxStackTraces, (s.traces_ i).count

/-- States that sequential invocations of the handler produce after `Start`:
on an unattached thread, after a capture that failed with some negative
`jint` above the least one, or after a capture that succeeded. -/
inductive Reachable (g : Globals) : Profiler → Prop where
  | start (a b : Bool) : Reachable g (Start a b).1
  | unattached (s : Profiler) (t : JVMPI_CallTrace) :
      Reachable g s → Reachable g (Handle g s false t).1
  | failed (s : Profiler) (t : JVMPI_CallTrace) :
      Reachable g s → -2 ^ 31 < t.num_frames → t.num_frames < 0 →
      Reachable g (Handle g s true t).1
  | captured (s : Profiler) (t : JVMPI_CallTrace) :
      Reachable g s → Captured g t → Reachable g (Handle g s true t).1

/-- Every slot has a non-negative `count`, and the `trace.frames` of an
occupied slot `i` is the address of row `i` of `frame_buffer_`. -/
def Basic (s : Profiler) : Prop :=
  ∀ i, 0 ≤ (s.traces_ i).count ∧ ((s.traces_ i).count ≠ 0 → (s.traces_ i).frames = some i)

/-- The only occupied slot is the start slot of `A`; it has count `N`, the
frame count of `A`, and its row of `frame_buffer_` equals the array of `A`. -/
def OnlyRecord (g : Globals) (s : Profiler) (A : JVMPI_CallTrace) (N : Int) : Prop :=
  s.traces_ (startSlot g A) = ⟨N, A.num_frames, some (startSlot g A)⟩ ∧
    (∀ k, k < g.kMaxFramesToCapture → s.frame_buffer_ (startSlot g A) k = A.frames k) ∧
    ∀ j, j ≠ startSlot g A → (s.traces_ j).count = 0

/-- A small configuration: 4 slots, 3 frames a trace, 10 reason codes. -/
def g4 : Globals := ⟨4, 3, 10⟩

/-- The table after the pairwise different traces `done` have been inserted:
every count is 0 or 1, the counts add up to the number of traces, and every
occupied slot holds one of them. -/
def Filled (g : Globals) (s : Profiler) (done : List JVMPI_CallTrace) : Prop :=
  Basic s ∧
    (∀ i, i < g.kMaxStackTraces → (s.traces_ i).count = 0 ∨ (s.traces_ i).count = 1) ∧
    totalCount g s = done.length ∧
    ∀ i, i < g.kMaxStackTraces → (s.traces_ i).count ≠ 0 → ∃ u ∈ done, Holds s i u

/-- The record of slot `i` read as a trace: its `trace.num_frames` and row
`i` of `frame_buffer_`. -/
def stored (s : Profiler) (i : Nat) : JVMPI_CallTrace :=
  ⟨(s.traces_ i).num_frames, s.frame_buffer_ i⟩

/-- The invariant of the open-addressing table: `Basic`; a row is zero where
its slot is free or at indices from the frame count of its slot on; between the
start slot of a stored record and its slot every slot of the probing sequence
is occupied; no two occupied slots store the same trace. -/
def TableInv (g : Globals) (s : Profiler) : Prop :=
  Basic s ∧
    (∀ i k, k < g.kMaxFramesToCapture →
      ((s.traces_ i).count = 0 ∨ (s.traces_ i).num_frames ≤ (k : Int)) →
      s.frame_buffer_ i k = zeroFrame) ∧
    (∀ j, j < g.kMaxStackTraces → (s.traces_ j).count ≠ 0 →
      ∀ k, k < g.kMaxStackTraces →
        (startSlot g (stored s j) + k) % g.kMaxStackTraces = j →
        ∀ m, m < k →
          (s.traces_ ((startSlot g (stored s j) + m) % g.kMaxStackTraces)).count ≠ 0) ∧
    ∀ i j, i < g.kMaxStackTraces → j < g.kMaxStackTraces →
      (s.traces_ i).count ≠ 0 → (s.traces_ j).count ≠ 0 →
      SameTrace (stored s i) (stored s j) → i = j

/-- An invocation that was not dropped: it claimed a free slot or matched a
stored record. -/
def kept : Outcome → Bool
  | Outcome.inserted _ => true
  | Outcome.aggregated _ => true
  | _ => false

/-- The trace `[(m1,10),(m2,20)]` with method ids 1 and 2. -/
def traceA : JVMPI_CallTrace := traceOf [⟨10, 1⟩, ⟨20, 2⟩]

/-- The trace `[(m1,10),(m2,21)]` with method ids 1 and 2. -/
def traceB : JVMPI_CallTrace := traceOf [⟨10, 1⟩, ⟨21, 2⟩]

/-- A trace of one frame. -/
def traceC : JVMPI_CallTrace := traceOf [⟨30, 3⟩]

/-- The trace without frames. -/
def traceD : JVMPI_CallTrace := traceOf []

/-- A trace of three frames. -/
def traceE : JVMPI_CallTrace := traceOf [⟨10, 1⟩, ⟨20, 2⟩, ⟨30, 3⟩]

/-- The invariant of the table in every reachable state, where failed captures
have stored records with a negative frame count: `Basic`; a row is zero where
its slot is free or at indices from the frame count of its slot on; between the
start slot of a stored record and its slot every slot of the probing sequence
is occupied; no two occupied slots store the same trace with a frame count of
at least 0. -/
def ProbeInv (g : Globals) (s : Profiler) : Prop :=
  Basic s ∧
    (∀ i k, k < g.kMaxFramesToCapture →
      ((s.traces_ i).count = 0 ∨ (s.traces_ i).num_frames ≤ (k : Int)) →
      s.frame_buffer_ i k = zeroFrame) ∧
    (∀ j, j < g.kMaxStackTraces → (s.traces_ j).count ≠ 0 →
      ∀ k, k < g.kMaxStackTraces →
        (startSlot g (stored s j) + k) % g.kMaxStackTraces = j →
        ∀ m, m < k →
          (s.traces_ ((startSlot g (stored s j) + m) % g.kMaxStackTraces)).count ≠ 0) ∧
    ∀ i j, i < g.kMaxStackTraces → j < g.kMaxStackTraces →
      (s.traces_ i).count ≠ 0 → (s.traces_ j).count ≠ 0 →
      0 ≤ (s.traces_ i).num_frames →
      SameTrace (stored s i) (stored s j) → i = j

/-- The comparison as the spec words it: the frame counts are equal and,
below the frame count, the frames agree in method identity and in line number. -/
def fieldwiseMatch (s : Profiler) (i : Nat) (t : JVMPI_CallTrace) : Bool :=
  decide ((s.traces_ i).num_frames = t.num_frames) &&
    (List.range t.num_frames.toNat).all (fun k =>
      decide ((s.frame_buffer_ i k).method_id = (t.frames k).method_id) &&
        decide ((s.frame_buffer_ i k).lineno = (t.frames k).lineno))

/-- The slots that the loop examines, in the order of examination. An
iteration with current index `i` reads `traces_[i]`, and when the loop leaves
at `i` it writes `traces_[i]`, and row `i` of `frame_buffer_` when it claims
the slot; it uses no other index into the two arrays. The control flow is that
of `probeLoop`. -/
def probeVisits (g : Globals) (s : Profiler) (trace : JVMPI_CallTrace) (idx : Nat) :
    Nat → Nat → List Nat
  | 0, _ => []
  | fuel + 1, i =>
    match slotTest g s trace i with
    | SlotTest.other =>
      if (i + 1) % g.kMaxStackTraces = idx then [i]
      else i :: probeVisits g s trace idx fuel ((i + 1) % g.kMaxStackTraces)
    | _ => [i]

/-- The index with which an invocation executes `failures_[...]++` (line 64 or
line 91), if it does; the control flow is that of `Handle`. -/
def failureIndexUsed (g : Globals) (env : Bool) (trace : JVMPI_CallTrace) : Option Int :=
  if env = false then some 0
  else if trace.num_frames < 0 then
    if -trace.num_frames > (g.kNumCallTraceErrors : Int) then none
    else some (-trace.num_frames)
  else none

/-- The frames of a trace as a sequence: the first `num_frames` entries of
its array. -/
def frameSequence (t : JVMPI_CallTrace) : List JVMPI_CallFrame :=
  (List.range t.num_frames.toNat).map t.frames

/-- The hash as a fold over a sequence of frames, with every operation
written out: from 0, each frame adds its method id, a shift-add by 10 and a
shift-xor by 6 follow, then its line number (sign-extended) is added and the
same two operations follow; at the end come a shift-add by 3 and a shift-xor
by 11. Every sum is reduced modulo `2 ^ 64`. -/
def hashFold (l : List JVMPI_CallFrame) : Nat :=
  let h := l.foldl
    (fun h f =>
      let a := (h + f.method_id % 2 ^ 64) % 2 ^ 64
      let b := (a + (a <<< 10) % 2 ^ 64) % 2 ^ 64
      let c := b ^^^ (b >>> 6)
      let d := (c + (f.lineno % 2 ^ 64).toNat) % 2 ^ 64
      let e := (d + (d <<< 10) % 2 ^ 64) % 2 ^ 64
      e ^^^ (e >>> 6))
    0
  let a := (h + (h <<< 3) % 2 ^ 64) % 2 ^ 64
  a ^^^ (a >>> 11)

/-- A capture result with one frame whose array holds another frame after it. -/
def traceF : JVMPI_CallTrace := ⟨1, bufferOf [⟨10, 1⟩, ⟨99, 9⟩]⟩

/-- The trace of the one frame `(m1,10)`. -/
def traceG : JVMPI_CallTrace := traceOf [⟨10, 1⟩]

/-- The comparator `CompareTraceData`. -/
def CompareTraceData (tr1 tr2 : TraceData) : Int :=
  if tr1.count > tr2.count then 1 else (if tr1.count < tr2.count then -1 else 0)

/-- The function `qsort` of the C library, which `DumpToFile` calls: it leaves
the elements of the array in an order in which the comparator, applied to an
element and a later one, is at most 0. The library does not fix the algorithm;
insertion sort stands for it here. -/
def qsort {α : Type} (compar : α → α → Int) (l : List α) : List α :=
  l.insertionSort (fun a b => compar a b ≤ 0)

/-- The array `traces_` as the list of its `kMaxStackTraces` elements. -/
def tracesList (g : Globals) (s : Profiler) : List TraceData :=
  (List.range g.kMaxStackTraces).map s.traces_

/-- The array `traces_` after line 189 of `Profiler::DumpToFile`:
`qsort(traces_, kMaxStackTraces, sizeof(TraceData), &CompareTraceData)`. -/
def sortedTraces (g : Globals) (s : Profiler) : List TraceData :=
  qsort CompareTraceData (tracesList g s)

/-- The function `SignalHandler::SetSigprofInterval`: it returns `false` when
`setitimer` returned -1 and `true` otherwise. -/
def SetSigprofInterval (setitimer : Int) : Bool :=
  if setitimer = -1 then false else true

/-- Where one invocation stands in the statement `failures_[k]++`. The array
is a plain `int` array and the statement is an ordinary increment, not the
`NoBarrier_AtomicIncrement` that line 122 uses for `count`: the counter is
loaded, and the loaded value plus 1 is stored afterwards. -/
inductive IncrementPc where
  | before
  | loaded (v : Int)
  | after
deriving DecidableEq

/-- One step of invocation `tid` in `failures_[k]++`: the load when it has not
started, the store when it has loaded, nothing when it is through. The state
is the array `failures_` and the position of every invocation. -/
def stepIncrement (k : Nat) (st : (Nat → Int) × (Nat → IncrementPc)) (tid : Nat) :
    (Nat → Int) × (Nat → IncrementPc) :=
  match st.2 tid with
  | IncrementPc.before => (st.1, Function.update st.2 tid (IncrementPc.loaded (st.1 k)))
  | IncrementPc.loaded v =>
    (Function.update st.1 k (wrapInt32 (v + 1)), Function.update st.2 tid IncrementPc.after)
  | IncrementPc.after => st

/-- Concurrent invocations that all execute `failures_[k]++`: they take their
steps in the order in which the schedule names them. -/
def interleave (k : Nat) (st : (Nat → Int) × (Nat → IncrementPc)) (schedule : List Nat) :
    (Nat → Int) × (Nat → IncrementPc) :=
  schedule.foldl (stepIncrement k) st

/-! ## Arithmetic of the probing sequence -/

theorem pos_eq {cap idx k : Nat} (hi : idx < cap) (hk : k ≤ cap) :
    (idx + k) % cap = if idx + k < cap then idx + k else idx + k - cap := by
  split
  · exact Nat.mod_eq_of_lt (by assumption)
  · rw [Nat.mod_eq_sub_mod (by omega)]
    exact Nat.mod_eq_of_lt (by omega)

theorem pos_lt {cap idx k : Nat} (hi : idx < cap) : (idx + k) % cap < cap :=
  Nat.mod_lt _ (by omega)

theorem pos_succ (cap idx k : Nat) : ((idx + k) % cap + 1) % cap = (idx + (k + 1)) % cap := by
  rw [Nat.mod_add_mod, Nat.add_assoc]

theorem pos_full {cap idx : Nat} (hi : idx < cap) : (idx + cap) % cap = idx := by
  rw [pos_eq hi (le_refl _)]
  split <;> omega

theorem pos_ne_start {cap idx k : Nat} (hi : idx < cap) (h0 : 0 < k) (hk : k < cap) :
    (idx + k) % cap ≠ idx := by
  rw [pos_eq hi (le_of_lt hk)]
  split <;> omega

theorem pos_inj {cap idx k m : Nat} (hi : idx < cap) (hk : k < cap) (hm : m < cap)
    (h : (idx + k) % cap = (idx + m) % cap) : k = m := by
  rw [pos_eq hi (le_of_lt hk), pos_eq hi (le_of_lt hm)] at h
  split at h <;> split at h <;> omega

theorem pos_surj {cap idx j : Nat} (hi : idx < cap) (hj : j < cap) :
    ∃ k, k < cap ∧ (idx + k) % cap = j := by
  by_cases h : idx ≤ j
  · refine ⟨j - idx, by omega, ?_⟩
    rw [pos_eq hi (by omega)]
    split <;> omega
  · refine ⟨j + cap - idx, by omega, ?_⟩
    rw [pos_eq hi (by omega)]
    split <;> omega

/-! ## The copy loop, the comparison and the hash -/

theorem copyLoop_apply (trace : JVMPI_CallTrace) (fb : Nat → JVMPI_CallFrame) (n k : Nat) :
    (List.range n).foldl
      (fun row frame_num =>
        Function.update row frame_num
          ⟨(trace.frames frame_num).lineno, (trace.frames frame_num).method_id⟩) fb k
      = if k < n then trace.frames k else fb k := by
  induction n with
  | zero => simp
  | succ n ih =>
    rw [List.range_succ, List.foldl_append]
    simp only [List.foldl_cons, List.foldl_nil]
    by_cases hk : k = n
    · subst hk
      simp
    · rw [Function.update_noteq hk, ih]
      by_cases h : k < n
      · simp [h, Nat.lt_succ_of_lt h]
      · have : ¬ k < n + 1 := by omega
        simp [h, this]

theorem copyFrames_apply (trace : JVMPI_CallTrace) (fb : Nat → JVMPI_CallFrame) (k : Nat) :
    copyFrames trace fb k = if (k : Int) < trace.num_frames then trace.frames k else fb k := by
  unfold copyFrames
  rw [copyLoop_apply]
  by_cases h : (k : Int) < trace.num_frames
  · have : k < trace.num_frames.toNat := by omega
    simp [h, this]
  · have : ¬ k < trace.num_frames.toNat := by omega
    simp [h, this]

theorem memcmpEq_iff (g : Globals) (a b : Nat → JVMPI_CallFrame) :
    memcmpEq g a b = true ↔ ∀ k, k < g.kMaxFramesToCapture → a k = b k := by
  simp [memcmpEq, List.all_eq_true]

theorem CalculateHash_congr (t u : JVMPI_CallTrace) (skip : Nat)
    (hn : t.num_frames = u.num_frames)
    (hf : ∀ k : Nat, (k : Int) < t.num_frames → t.frames k = u.frames k) :
    CalculateHash t skip = CalculateHash u skip := by
  have key : ((List.range t.num_frames.toNat).drop skip).foldl
      (fun h i => hashStep h (t.frames i)) 0
      = ((List.range u.num_frames.toNat).drop skip).foldl
      (fun h i => hashStep h (u.frames i)) 0 := by
    rw [← hn]
    apply List.foldl_ext
    intro h i hi
    have hi2 := List.mem_range.mp (List.mem_of_mem_drop hi)
    rw [hf i (by omega)]
  simp only [CalculateHash, key]

/-! ## The probing loop -/

theorem probeLoop_other (g : Globals) (s : Profiler) (t : JVMPI_CallTrace) (idx : Nat)
    (hi : idx < g.kMaxStackTraces) :
    ∀ fuel k, fuel + k = g.kMaxStackTraces → 0 < fuel →
      (∀ j, k ≤ j → j < g.kMaxStackTraces →
        slotTest g s t ((idx + j) % g.kMaxStackTraces) = SlotTest.other) →
      probeLoop g s t idx fuel ((idx + k) % g.kMaxStackTraces) = (s, Outcome.dropped) := by
  intro fuel
  induction fuel with
  | zero => intro k _ h; omega
  | succ f ih =>
    intro k hk _ hall
    rw [probeLoop, hall k (le_refl _) (by omega)]
    simp only [pos_succ]
    by_cases hf : f = 0
    · subst hf
      have : k + 1 = g.kMaxStackTraces := by omega
      rw [this, pos_full hi]
      simp
    · rw [if_neg (pos_ne_start hi (by omega) (by omega))]
      exact ih (k + 1) (by omega) (by omega) (fun j hj hj2 => hall j (by omega) hj2)

theorem probeLoop_stop (g : Globals) (s : Profiler) (t : JVMPI_CallTrace) (idx m : Nat)
    (hi : idx < g.kMaxStackTraces) (hm : m < g.kMaxStackTraces)
    (hstop : slotTest g s t ((idx + m) % g.kMaxStackTraces) ≠ SlotTest.other) :
    ∀ fuel k, fuel + k = g.kMaxStackTraces → k ≤ m →
      (∀ j, k ≤ j → j < m →
        slotTest g s t ((idx + j) % g.kMaxStackTraces) = SlotTest.other) →
      probeLoop g s t idx fuel ((idx + k) % g.kMaxStackTraces)
        = stopAt g s t ((idx + m) % g.kMaxStackTraces) := by
  intro fuel
  induction fuel with
  | zero => intro k hk hkm; omega
  | succ f ih =>
    intro k hk hkm hall
    by_cases hkm2 : k = m
    · subst hkm2
      rw [probeLoop, stopAt]
      cases h : slotTest g s t ((idx + k) % g.kMaxStackTraces) <;> simp_all
    · rw [probeLoop, hall k (le_refl _) (by omega)]
      simp only [pos_succ]
      rw [if_neg (pos_ne_start hi (by omega) (by omega))]
      exact ih (k + 1) (by omega) (by omega) (fun j hj hj2 => hall j (by omega) hj2)

/-- The loop started by `probe` either passes every slot and drops the sample,
or leaves at the first slot of the probing sequence whose test is not `other`. -/
theorem probe_cases (g : Globals) (s : Profiler) (t : JVMPI_CallTrace)
    (hcap : 0 < g.kMaxStackTraces) :
    ((∀ j, j < g.kMaxStackTraces → slotTest g s t j = SlotTest.other) ∧
        probe g s t = (s, Outcome.dropped)) ∨
    (∃ m, m < g.kMaxStackTraces ∧
      (∀ j, j < m → slotTest g s t ((startSlot g t + j) % g.kMaxStackTraces) = SlotTest.other) ∧
      slotTest g s t ((startSlot g t + m) % g.kMaxStackTraces) ≠ SlotTest.other ∧
      probe g s t = stopAt g s t ((startSlot g t + m) % g.kMaxStackTraces)) := by
  have hi : startSlot g t < g.kMaxStackTraces := Nat.mod_lt _ hcap
  have hstart : probe g s t
      = probeLoop g s t (startSlot g t) g.kMaxStackTraces
          ((startSlot g t + 0) % g.kMaxStackTraces) := by
    rw [Nat.add_zero, Nat.mod_eq_of_lt hi]
    rfl
  by_cases hex : ∃ m, m < g.kMaxStackTraces ∧
      slotTest g s t ((startSlot g t + m) % g.kMaxStackTraces) ≠ SlotTest.other
  · right
    classical
    refine ⟨Nat.find hex, (Nat.find_spec hex).1, ?_, (Nat.find_spec hex).2, ?_⟩
    · intro j hj
      by_contra hne
      exact Nat.find_min hex hj ⟨lt_trans hj (Nat.find_spec hex).1, hne⟩
    · rw [hstart]
      apply probeLoop_stop g s t _ _ hi (Nat.find_spec hex).1 (Nat.find_spec hex).2
        g.kMaxStackTraces 0 (by omega) (Nat.zero_le _)
      intro j _ hj
      by_contra hne
      exact Nat.find_min hex hj ⟨lt_trans hj (Nat.find_spec hex).1, hne⟩
  · left
    have hall : ∀ j, j < g.kMaxStackTraces →
        slotTest g s t ((startSlot g t + j) % g.kMaxStackTraces) = SlotTest.other := by
      intro j hj
      by_contra hne
      exact hex ⟨j, hj, hne⟩
    refine ⟨?_, ?_⟩
    · intro j hj
      obtain ⟨k, hk, hkj⟩ := pos_surj hi hj
      rw [← hkj]
      exact hall k hk
    · rw [hstart]
      exact probeLoop_other g s t _ hi g.kMaxStackTraces 0 (by omega) hcap
        (fun j _ hj => hall j hj)

/-! ## The tests at one slot -/

theorem slotTest_eq (g : Globals) (s : Profiler) (t : JVMPI_CallTrace) (i : Nat) :
    slotTest g s t i =
      if (s.traces_ i).count = 0 then SlotTest.free
      else if (s.traces_ i).num_frames = t.num_frames then
        match (s.traces_ i).frames with
        | none => SlotTest.nullDeref
        | some r =>
          if memcmpEq g (s.frame_buffer_ r) t.frames then SlotTest.same else SlotTest.other
      else SlotTest.other := by
  unfold slotTest
  by_cases h : (s.traces_ i).count = 0
  · simp [h, NoBarrier_CompareAndSwap]
  · simp [h]

theorem swap_of_free (c : Int) (h : c = 0) : (NoBarrier_CompareAndSwap c 0 1).2 = 1 := by
  simp [NoBarrier_CompareAndSwap, h]

theorem swap_ne_zero (c : Int) : (NoBarrier_CompareAndSwap c 0 1).2 ≠ 0 := by
  unfold NoBarrier_CompareAndSwap
  by_cases h : c = 0
  · simp [h]
  · simp [h]

theorem swap_nonneg (c : Int) (h : 0 ≤ c) : 0 ≤ (NoBarrier_CompareAndSwap c 0 1).2 := by
  unfold NoBarrier_CompareAndSwap
  by_cases h0 : c = 0
  · simp [h0]
  · simp [h0, h]

theorem slotTest_free_iff (g : Globals) (s : Profiler) (t : JVMPI_CallTrace) (i : Nat) :
    slotTest g s t i = SlotTest.free ↔ (s.traces_ i).count = 0 := by
  rw [slotTest_eq]
  constructor
  · intro h
    by_contra hc
    rw [if_neg hc] at h
    split at h
    · split at h
      · cases h
      · split at h <;> cases h
    · cases h
  · intro h
    rw [if_pos h]

theorem slotTest_same_iff (g : Globals) (s : Profiler) (t : JVMPI_CallTrace) (i : Nat) :
    slotTest g s t i = SlotTest.same ↔
      (s.traces_ i).count ≠ 0 ∧ (s.traces_ i).num_frames = t.num_frames ∧
        ∃ r, (s.traces_ i).frames = some r ∧ memcmpEq g (s.frame_buffer_ r) t.frames = true := by
  rw [slotTest_eq]
  constructor
  · intro h
    split at h
    · cases h
    · rename_i hc
      split at h
      · rename_i hn
        split at h
        · cases h
        · rename_i r hr
          split at h
          · rename_i hm
            exact ⟨hc, hn, r, hr, hm⟩
          · cases h
      · cases h
  · rintro ⟨hc, hn, r, hr, hm⟩
    rw [if_neg hc, if_pos hn]
    simp [hr, hm]

theorem slotTest_nullDeref_iff (g : Globals) (s : Profiler) (t : JVMPI_CallTrace) (i : Nat) :
    slotTest g s t i = SlotTest.nullDeref ↔
      (s.traces_ i).count ≠ 0 ∧ (s.traces_ i).num_frames = t.num_frames ∧
        (s.traces_ i).frames = none := by
  rw [slotTest_eq]
  constructor
  · intro h
    split at h
    · cases h
    · rename_i hc
      split at h
      · rename_i hn
        split at h
        · rename_i hr
          exact ⟨hc, hn, hr⟩
        · split at h <;> cases h
      · cases h
  · rintro ⟨hc, hn, hr⟩
    rw [if_neg hc, if_pos hn]
    simp [hr]

theorem stopAt_free (g : Globals) (s : Profiler) (t : JVMPI_CallTrace) (i : Nat)
    (h : slotTest g s t i = SlotTest.free) :
    stopAt g s t i = (claimSlot s t i, Outcome.inserted i) := by
  simp [stopAt, h]

theorem stopAt_same (g : Globals) (s : Profiler) (t : JVMPI_CallTrace) (i : Nat)
    (h : slotTest g s t i = SlotTest.same) :
    stopAt g s t i = (incrementSlot s i, Outcome.aggregated i) := by
  simp [stopAt, h]

theorem stopAt_nullDeref (g : Globals) (s : Profiler) (t : JVMPI_CallTrace) (i : Nat)
    (h : slotTest g s t i = SlotTest.nullDeref) :
    stopAt g s t i = (s, Outcome.nullFrames i) := by
  simp [stopAt, h]

/-- The loop leaves at the first slot of the probing sequence whose test is not `other`. -/
theorem probe_first (g : Globals) (s : Profiler) (t : JVMPI_CallTrace) (m : Nat)
    (hm : m < g.kMaxStackTraces)
    (hbefore : ∀ j, j < m →
      slotTest g s t ((startSlot g t + j) % g.kMaxStackTraces) = SlotTest.other)
    (hstop : slotTest g s t ((startSlot g t + m) % g.kMaxStackTraces) ≠ SlotTest.other) :
    probe g s t = stopAt g s t ((startSlot g t + m) % g.kMaxStackTraces) := by
  have hcap : 0 < g.kMaxStackTraces := by omega
  have hi : startSlot g t < g.kMaxStackTraces := Nat.mod_lt _ hcap
  have hstart : probe g s t
      = probeLoop g s t (startSlot g t) g.kMaxStackTraces
          ((startSlot g t + 0) % g.kMaxStackTraces) := by
    rw [Nat.add_zero, Nat.mod_eq_of_lt hi]
    rfl
  rw [hstart]
  exact probeLoop_stop g s t _ _ hi hm hstop g.kMaxStackTraces 0 (by omega) (Nat.zero_le _)
    (fun j _ hj => hbefore j hj)

theorem probe_at_start (g : Globals) (s : Profiler) (t : JVMPI_CallTrace)
    (hcap : 0 < g.kMaxStackTraces)
    (hstop : slotTest g s t (startSlot g t) ≠ SlotTest.other) :
    probe g s t = stopAt g s t (startSlot g t) := by
  have hi : startSlot g t < g.kMaxStackTraces := Nat.mod_lt _ hcap
  have h := probe_first g s t 0 hcap (fun j hj => by omega)
    (by rw [Nat.add_zero, Nat.mod_eq_of_lt hi]; exact hstop)
  rw [Nat.add_zero, Nat.mod_eq_of_lt hi] at h
  exact h

theorem Handle_captured (g : Globals) (s : Profiler) (t : JVMPI_CallTrace)
    (h : 0 ≤ t.num_frames) : Handle g s true t = probe g s t := by
  have : ¬ t.num_frames < 0 := by omega
  simp [Handle, this]

/-! ## Failure counters -/

theorem wrapInt32_of_range (x : Int) (h1 : -2147483648 ≤ x) (h2 : x ≤ 2147483647) :
    wrapInt32 x = x := by
  unfold wrapInt32
  omega

theorem wrapInt32_add (x y : Int) : wrapInt32 (wrapInt32 x + y) = wrapInt32 (x + y) := by
  unfold wrapInt32
  omega

theorem wrapInt32_idem (x : Int) : wrapInt32 (wrapInt32 x) = wrapInt32 x := by
  unfold wrapInt32
  omega

theorem probeLoop_failures (g : Globals) (s : Profiler) (t : JVMPI_CallTrace) (idx : Nat) :
    ∀ fuel i, (probeLoop g s t idx fuel i).1.failures_ = s.failures_ := by
  intro fuel
  induction fuel with
  | zero => intro i; rfl
  | succ f ih =>
    intro i
    rw [probeLoop]
    cases slotTest g s t i
    · rfl
    · rfl
    · rfl
    · simp only
      split
      · rfl
      · exact ih _

theorem probe_failures (g : Globals) (s : Profiler) (t : JVMPI_CallTrace) :
    (probe g s t).1.failures_ = s.failures_ :=
  probeLoop_failures g s t _ _ _

theorem Handle_failed (g : Globals) (s : Profiler) (t : JVMPI_CallTrace) (R : Nat)
    (hR1 : 1 ≤ R) (hR : R ≤ g.kNumCallTraceErrors) (ht : t.num_frames = -(R : Int)) :
    Handle g s true t = probe g (bumpFailure s R) t := by
  have h1 : t.num_frames < 0 := by omega
  have h2 : ¬ -t.num_frames > (g.kNumCallTraceErrors : Int) := by omega
  have h3 : (-t.num_frames).toNat = R := by omega
  simp [Handle, h1, h2, h3]

theorem Handle_out_of_range (g : Globals) (s : Profiler) (t : JVMPI_CallTrace)
    (h2 : t.num_frames < -(g.kNumCallTraceErrors : Int)) :
    Handle g s true t = (s, Outcome.ignored) := by
  have h3 : t.num_frames < 0 := by omega
  have h4 : -t.num_frames > (g.kNumCallTraceErrors : Int) := by omega
  simp [Handle, h3, h4]

theorem run_failed_failures (g : Globals) (R : Nat)
    (hR1 : 1 ≤ R) (hR : R ≤ g.kNumCallTraceErrors) :
    ∀ (l : List JVMPI_CallTrace) (s : Profiler), (∀ t ∈ l, t.num_frames = -(R : Int)) →
      wrapInt32 (s.failures_ R) = s.failures_ R →
      (run g s (attached l)).failures_ R = wrapInt32 (s.failures_ R + l.length) := by
  intro l
  induction l with
  | nil =>
    intro s _ hs
    simp [attached, run, hs]
  | cons t l ih =>
    intro s hl _
    have ht := hl t (List.mem_cons_self _ _)
    have hrest : ∀ u ∈ l, u.num_frames = -(R : Int) :=
      fun u hu => hl u (List.mem_cons_of_mem _ hu)
    have hstep : run g s (attached (t :: l)) = run g (Handle g s true t).1 (attached l) := rfl
    have hf : (Handle g s true t).1.failures_ R = wrapInt32 (s.failures_ R + 1) := by
      rw [Handle_failed g s t R hR1 hR ht, probe_failures]
      simp [bumpFailure]
    rw [hstep, ih _ hrest (by rw [hf, wrapInt32_idem]), hf, wrapInt32_add]
    congr 1
    simp only [List.length_cons]
    push_cast
    ring

theorem run_unattached_failures (g : Globals) (t : JVMPI_CallTrace) :
    ∀ (n : Nat) (s : Profiler), wrapInt32 (s.failures_ 0) = s.failures_ 0 →
      (run g s (List.replicate n (false, t))).failures_ 0 = wrapInt32 (s.failures_ 0 + n) := by
  intro n
  induction n with
  | zero =>
    intro s hs
    simp [run, hs]
  | succ n ih =>
    intro s _
    have hstep : run g s (List.replicate (n + 1) (false, t))
        = run g (Handle g s false t).1 (List.replicate n (false, t)) := rfl
    have hf : (Handle g s false t).1.failures_ 0 = wrapInt32 (s.failures_ 0 + 1) := by
      simp [Handle, bumpFailure]
    rw [hstep, ih _ (by rw [hf, wrapInt32_idem]), hf, wrapInt32_add]
    congr 1
    push_cast
    ring

/-- C7 (evaluation of the code): after `Start`, an invocation on an attached
thread whose capture fails with the valid reason code `R` increments
`failures_[R]` and then goes on to the probing loop, which claims slot 0 of
`traces_` and stores the negative frame count `-R` there: the trace table does
not stay as it was. -/
theorem failed_capture_claims_slot (g : Globals) (a b : Bool) (R : Nat)
    (frames : Nat → JVMPI_CallFrame)
    (hcap : 0 < g.kMaxStackTraces) (hR1 : 1 ≤ R) (hR : R ≤ g.kNumCallTraceErrors)
    (hk : g.kNumCallTraceErrors < 2 ^ 31) :
    (Handle g (Start a b).1 true ⟨-(R : Int), frames⟩).1.failures_ R = 1 ∧
    (Handle g (Start a b).1 true ⟨-(R : Int), frames⟩).2 = Outcome.inserted 0 ∧
    (Handle g (Start a b).1 true ⟨-(R : Int), frames⟩).1.traces_ 0 = ⟨1, -(R : Int), some 0⟩ ∧
    (Handle g (Start a b).1 true ⟨-(R : Int), frames⟩).1.traces_ 0 ≠ (Start a b).1.traces_ 0 := by
  have hH := Handle_failed g (Start a b).1 ⟨-(R : Int), frames⟩ R hR1 hR rfl
  have hn : (-(R : Int)).toNat = 0 := by omega
  have hhash : CalculateHash ⟨-(R : Int), frames⟩ 0 = 0 := by
    simp [CalculateHash, hn, mixShift, u64]
  obtain ⟨f, hf⟩ : ∃ f, g.kMaxStackTraces = f + 1 := ⟨g.kMaxStackTraces - 1, by omega⟩
  have hp : probe g (bumpFailure (Start a b).1 R) ⟨-(R : Int), frames⟩
      = (claimSlot (bumpFailure (Start a b).1 R) ⟨-(R : Int), frames⟩ 0, Outcome.inserted 0) := by
    simp only [probe, hhash, Nat.zero_mod]
    rw [hf, probeLoop]
    have : slotTest g (bumpFailure (Start a b).1 R) ⟨-(R : Int), frames⟩ 0 = SlotTest.free := by
      simp [slotTest_eq, bumpFailure, Start, cleared]
    rw [this]
  rw [hH, hp]
  refine ⟨?_, rfl, ?_, ?_⟩
  · have h1 : wrapInt32 1 = 1 := by decide
    simp [claimSlot, bumpFailure, Start, cleared, h1]
  · simp [claimSlot, bumpFailure, Start, cleared, NoBarrier_CompareAndSwap]
  · simp [claimSlot, bumpFailure, Start, cleared, NoBarrier_CompareAndSwap]

theorem failed_capture_claims_slot_witness :
    (Handle g4 (Start true true).1 true ⟨-(1 : Nat), fun _ => zeroFrame⟩).1.failures_ 1 = 1 ∧
    (Handle g4 (Start true true).1 true ⟨-(1 : Nat), fun _ => zeroFrame⟩).2 = Outcome.inserted 0 ∧
    (Handle g4 (Start true true).1 true ⟨-(1 : Nat), fun _ => zeroFrame⟩).1.traces_ 0
      = ⟨1, -(1 : Nat), some 0⟩ ∧
    (Handle g4 (Start true true).1 true ⟨-(1 : Nat), fun _ => zeroFrame⟩).1.traces_ 0
      ≠ (Start true true).1.traces_ 0 :=
  failed_capture_claims_slot g4 true true 1 (fun _ => zeroFrame)
    (by decide) (by decide) (by decide) (by decide)

/-- C8 (counterexample): after `Start` and `2147483648` sequential invocations
on an attached thread whose captures all return `-2`, the `int` counter
`failures_[2]` holds `-2147483648`, not the number of invocations. -/
theorem failure_counter_overflows :
    (run g4 (Start true true).1
      (attached (List.replicate 2147483648 ⟨-2, fun _ => zeroFrame⟩))).failures_ 2
        = -2147483648 ∧
    (run g4 (Start true true).1
      (attached (List.replicate 2147483648 ⟨-2, fun _ => zeroFrame⟩))).failures_ 2
        ≠ ((List.replicate 2147483648 (⟨-2, fun _ => zeroFrame⟩ : JVMPI_CallTrace)).length : Int) := by
  have h := run_failed_failures g4 2 (by decide) (by decide)
    (List.replicate 2147483648 ⟨-2, fun _ => zeroFrame⟩) (Start true true).1
    (fun t ht => by rw [List.eq_of_mem_replicate ht]; rfl) (by decide)
  have h0 : (Start true true).1.failures_ 2 = 0 := rfl
  rw [List.length_replicate, h0] at h
  have hw : wrapInt32 (0 + ((2147483648 : Nat) : Int)) = -2147483648 := by decide
  rw [hw] at h
  rw [h, List.length_replicate]
  exact ⟨rfl, by decide⟩

/-- C8 (amended): after `Start`, `N` sequential invocations on an attached
thread whose captures all return `-R` for a valid reason code `R` leave
`failures_[R] = N`, for every `N` up to `2147483647`, the largest value of the
`int` counter (`N` is the length of the list of capture results). -/
theorem failure_counting_exact (g : Globals) (a b : Bool) (R : Nat) (l : List JVMPI_CallTrace)
    (hR1 : 1 ≤ R) (hR : R ≤ g.kNumCallTraceErrors)
    (hl : ∀ t ∈ l, t.num_frames = -(R : Int)) (hN : l.length ≤ 2147483647) :
    (run g (Start a b).1 (attached l)).failures_ R = l.length := by
  have h0 : (Start a b).1.failures_ R = 0 := rfl
  rw [run_failed_failures g R hR1 hR l _ hl (by rw [h0]; decide), h0, Int.zero_add]
  apply wrapInt32_of_range <;> omega

theorem failure_counting_exact_witness :
    (run g4 (Start true true).1
      (attached [⟨-(2 : Nat), fun _ => zeroFrame⟩, ⟨-(2 : Nat), fun _ => zeroFrame⟩,
        ⟨-(2 : Nat), fun _ => zeroFrame⟩])).failures_ 2 = (3 : Nat) :=
  failure_counting_exact g4 true true 2
    [⟨-(2 : Nat), fun _ => zeroFrame⟩, ⟨-(2 : Nat), fun _ => zeroFrame⟩,
      ⟨-(2 : Nat), fun _ => zeroFrame⟩]
    (by decide) (by decide) (by simp) (by decide)

/-- C9: when the capture returns a frame count below `-kNumCallTraceErrors`,
the handler takes the `return` of line 89: the whole state is as before, so no
element of `failures_` and no slot of `traces_` changes, and the statement
`failures_[idx]++` is not executed, with no index at all. -/
theorem out_of_range_codes_ignored (g : Globals) (s : Profiler) (t : JVMPI_CallTrace)
    (h : t.num_frames < -(g.kNumCallTraceErrors : Int)) :
    Handle g s true t = (s, Outcome.ignored) ∧
    (Handle g s true t).1.failures_ = s.failures_ ∧
    (Handle g s true t).1.traces_ = s.traces_ ∧
    (Handle g s true t).1.frame_buffer_ = s.frame_buffer_ ∧
    failureIndexUsed g true t = none := by
  have hH := Handle_out_of_range g s t h
  rw [hH]
  refine ⟨rfl, rfl, rfl, rfl, ?_⟩
  have h3 : t.num_frames < 0 := by omega
  have h4 : -t.num_frames > (g.kNumCallTraceErrors : Int) := by omega
  simp [failureIndexUsed, h3, h4]

theorem out_of_range_codes_ignored_witness :
    Handle g4 (run g4 (Start true true).1 (attached [traceA])) true ⟨-11, fun _ => zeroFrame⟩
      = (run g4 (Start true true).1 (attached [traceA]), Outcome.ignored) ∧
    (Handle g4 (run g4 (Start true true).1 (attached [traceA])) true
      ⟨-11, fun _ => zeroFrame⟩).1.failures_
      = (run g4 (Start true true).1 (attached [traceA])).failures_ ∧
    (Handle g4 (run g4 (Start true true).1 (attached [traceA])) true
      ⟨-11, fun _ => zeroFrame⟩).1.traces_
      = (run g4 (Start true true).1 (attached [traceA])).traces_ ∧
    (Handle g4 (run g4 (Start true true).1 (attached [traceA])) true
      ⟨-11, fun _ => zeroFrame⟩).1.frame_buffer_
      = (run g4 (Start true true).1 (attached [traceA])).frame_buffer_ ∧
    failureIndexUsed g4 true ⟨-11, fun _ => zeroFrame⟩ = none :=
  out_of_range_codes_ignored g4 (run g4 (Start true true).1 (attached [traceA]))
    ⟨-11, fun _ => zeroFrame⟩ (by decide)

/-- C10 (counterexample): after `Start` and `2147483647` invocations on an
unattached thread `failures_[0]` holds `2147483647`, and one more invocation
on an unattached thread leaves `-2147483648` there: the counter has not
increased by 1. -/
theorem unattached_counter_overflows :
    (run g4 (Start true true).1 (List.replicate 2147483647 (false, traceD))).failures_ 0
      = 2147483647 ∧
    (Handle g4 (run g4 (Start true true).1 (List.replicate 2147483647 (false, traceD)))
      false traceD).1.failures_ 0 = -2147483648 ∧
    (Handle g4 (run g4 (Start true true).1 (List.replicate 2147483647 (false, traceD)))
      false traceD).1.failures_ 0
      ≠ (run g4 (Start true true).1 (List.replicate 2147483647 (false, traceD))).failures_ 0
        + 1 := by
  have h := run_unattached_failures g4 traceD 2147483647 (Start true true).1 (by decide)
  have h0 : (Start true true).1.failures_ 0 = 0 := rfl
  have hw : wrapInt32 (0 + ((2147483647 : Nat) : Int)) = 2147483647 := by decide
  rw [h0, hw] at h
  have hH : (Handle g4 (run g4 (Start true true).1 (List.replicate 2147483647 (false, traceD)))
      false traceD).1.failures_ 0 = -2147483648 := by
    simp only [Handle, if_true, bumpFailure, Function.update_same, h]
    decide
  rw [hH, h]
  exact ⟨rfl, rfl, by decide⟩

/-- C10 (amended): on a thread without JNI environment, when the `int` counter
`failures_[0]` is below `2147483647`, the handler increments `failures_[0]`,
the counter that the report prints as "Non Java thread", by one, leaves every
other failure counter, `traces_` and `frame_buffer_` as they were, returns
before the capture (exit `notAttached`), and its result does not depend on
what a capture would have returned. -/
theorem unattached_only_counted (g : Globals) (s : Profiler) (t u : JVMPI_CallTrace)
    (hlo : -2147483648 ≤ s.failures_ 0) (hhi : s.failures_ 0 < 2147483647) :
    (Handle g s false t).1.failures_ 0 = s.failures_ 0 + 1 ∧
    (∀ k, k ≠ 0 → (Handle g s false t).1.failures_ k = s.failures_ k) ∧
    (Handle g s false t).1.traces_ = s.traces_ ∧
    (Handle g s false t).1.frame_buffer_ = s.frame_buffer_ ∧
    (Handle g s false t).2 = Outcome.notAttached ∧
    Handle g s false t = Handle g s false u := by
  have h : ∀ v : JVMPI_CallTrace, Handle g s false v = (bumpFailure s 0, Outcome.notAttached) := by
    intro v
    simp [Handle]
  rw [h t, h u]
  refine ⟨?_, ?_, rfl, rfl, rfl, rfl⟩
  · simp only [bumpFailure, Function.update_same]
    apply wrapInt32_of_range <;> omega
  · intro k hk
    simp [bumpFailure, Function.update_noteq hk]

theorem unattached_only_counted_witness :
    (Handle g4 (Start true true).1 false traceA).1.failures_ 0
      = (Start true true).1.failures_ 0 + 1 ∧
    (∀ k, k ≠ 0 →
      (Handle g4 (Start true true).1 false traceA).1.failures_ k
        = (Start true true).1.failures_ k) ∧
    (Handle g4 (Start true true).1 false traceA).1.traces_ = (Start true true).1.traces_ ∧
    (Handle g4 (Start true true).1 false traceA).1.frame_buffer_
      = (Start true true).1.frame_buffer_ ∧
    (Handle g4 (Start true true).1 false traceA).2 = Outcome.notAttached ∧
    Handle g4 (Start true true).1 false traceA = Handle g4 (Start true true).1 false traceB :=
  unattached_only_counted g4 (Start true true).1 traceA traceB (by decide) (by decide)

/-! ## Replaying one trace -/

theorem OnlyRecord_first (g : Globals) (a b : Bool) (A : JVMPI_CallTrace)
    (hcap : 0 < g.kMaxStackTraces) (hA : Captured g A) :
    OnlyRecord g (Handle g (Start a b).1 true A).1 A 1 := by
  have hfree : slotTest g (Start a b).1 A (startSlot g A) = SlotTest.free :=
    (slotTest_free_iff _ _ _ _).mpr rfl
  rw [Handle_captured g _ A hA.1, probe_at_start g _ A hcap (by rw [hfree]; simp),
    stopAt_free _ _ _ _ hfree]
  refine ⟨by simp [claimSlot, Start, cleared, NoBarrier_CompareAndSwap], ?_, ?_⟩
  · intro k hk
    simp only [claimSlot, Function.update_same, copyFrames_apply]
    split
    · rfl
    · rename_i h
      exact (hA.2.2 k hk (by omega)).symm
  · intro j hj
    simp [claimSlot, Function.update_noteq hj, Start, cleared]

theorem OnlyRecord_next (g : Globals) (s : Profiler) (A : JVMPI_CallTrace) (N : Int)
    (hcap : 0 < g.kMaxStackTraces) (hA : Captured g A) (hN : 1 ≤ N)
    (h : OnlyRecord g s A N) :
    OnlyRecord g (Handle g s true A).1 A (N + 1) := by
  obtain ⟨h1, h2, h3⟩ := h
  have hsame : slotTest g s A (startSlot g A) = SlotTest.same := by
    rw [slotTest_same_iff, h1]
    refine ⟨by simp; omega, rfl, startSlot g A, rfl, ?_⟩
    rw [memcmpEq_iff]
    exact h2
  rw [Handle_captured g _ A hA.1, probe_at_start g _ A hcap (by rw [hsame]; simp),
    stopAt_same _ _ _ _ hsame]
  refine ⟨by simp [incrementSlot, h1, NoBarrier_AtomicIncrement], ?_, ?_⟩
  · intro k hk
    exact h2 k hk
  · intro j hj
    simp [incrementSlot, Function.update_noteq hj, h3 j hj]

theorem OnlyRecord_replay (g : Globals) (A : JVMPI_CallTrace)
    (hcap : 0 < g.kMaxStackTraces) (hA : Captured g A) :
    ∀ (M : Nat) (s : Profiler) (N : Int), 1 ≤ N → OnlyRecord g s A N →
      OnlyRecord g (run g s (attached (List.replicate M A))) A (N + M) := by
  intro M
  induction M with
  | zero => intro s N _ h; simpa [attached, run] using h
  | succ M ih =>
    intro s N hN h
    have hstep : run g s (attached (List.replicate (M + 1) A))
        = run g (Handle g s true A).1 (attached (List.replicate M A)) := rfl
    rw [hstep]
    have := ih _ (N + 1) (by omega) (OnlyRecord_next g s A N hcap hA hN h)
    have e : N + 1 + (M : Int) = N + ((M + 1 : Nat) : Int) := by push_cast; ring
    rw [← e]
    exact this

/-- C1: after `Start`, `N ≥ 1` sequential invocations whose capture returns the
trace `A` (frame count between 0 and `kMaxFramesToCapture`, written into the
cleared array) leave exactly one occupied slot; it holds the frame count and
the frames of `A`, and its count is `N`. -/
theorem replay_aggregates (g : Globals) (a b : Bool) (A : JVMPI_CallTrace) (N : Nat)
    (hcap : 0 < g.kMaxStackTraces) (hA : Captured g A) (hN : 1 ≤ N) :
    ∃ i, i < g.kMaxStackTraces ∧
      ((run g (Start a b).1 (attached (List.replicate N A))).traces_ i).count = N ∧
      Holds (run g (Start a b).1 (attached (List.replicate N A))) i A ∧
      ∀ j, j < g.kMaxStackTraces → j ≠ i →
        ((run g (Start a b).1 (attached (List.replicate N A))).traces_ j).count = 0 := by
  obtain ⟨M, rfl⟩ : ∃ M, N = M + 1 := ⟨N - 1, by omega⟩
  have hstep : run g (Start a b).1 (attached (List.replicate (M + 1) A))
      = run g (Handle g (Start a b).1 true A).1 (attached (List.replicate M A)) := rfl
  rw [hstep]
  obtain ⟨h1, h2, h3⟩ := OnlyRecord_replay g A hcap hA M _ 1 (le_refl _)
    (OnlyRecord_first g a b A hcap hA)
  refine ⟨startSlot g A, Nat.mod_lt _ hcap, ?_, ⟨?_, ?_, ?_⟩, ?_⟩
  · rw [h1]
    push_cast
    ring
  · rw [h1]
  · rw [h1]
  · intro k hk
    exact h2 k (by have := hA.2.1; omega)
  · intro j _ hj
    exact h3 j hj

theorem replay_aggregates_witness :
    ∃ i, i < g4.kMaxStackTraces ∧
      ((run g4 (Start true true).1 (attached (List.replicate 3 traceA))).traces_ i).count
        = (3 : Nat) ∧
      Holds (run g4 (Start true true).1 (attached (List.replicate 3 traceA))) i traceA ∧
      ∀ j, j < g4.kMaxStackTraces → j ≠ i →
        ((run g4 (Start true true).1 (attached (List.replicate 3 traceA))).traces_ j).count = 0 :=
  replay_aggregates g4 true true traceA 3 (by decide)
    ⟨by decide, by decide, by decide⟩ (by decide)

/-! ## Two traces that differ in one line number -/

theorem second_trace_slot (g : Globals) (s : Profiler) (A B : JVMPI_CallTrace)
    (hcap : 2 ≤ g.kMaxStackTraces) (hs : OnlyRecord g s A 1)
    (d : Nat) (hd : d < g.kMaxFramesToCapture)
    (hdiff : A.frames d ≠ B.frames d) :
    ∃ p, p < g.kMaxStackTraces ∧ p ≠ startSlot g A ∧
      probe g s B = (claimSlot s B p, Outcome.inserted p) := by
  obtain ⟨h1, h2, h3⟩ := hs
  have hcap0 : 0 < g.kMaxStackTraces := by omega
  have hiB : startSlot g B < g.kMaxStackTraces := Nat.mod_lt _ hcap0
  by_cases hi : startSlot g B = startSlot g A
  · have hother : slotTest g s B (startSlot g B) = SlotTest.other := by
      rw [hi]
      cases hc : slotTest g s B (startSlot g A)
      · rw [slotTest_free_iff, h1] at hc
        simp at hc
      · rw [slotTest_nullDeref_iff, h1] at hc
        simp at hc
      · rw [slotTest_same_iff, h1] at hc
        obtain ⟨_, _, r, hr, hm⟩ := hc
        simp only [Option.some.injEq] at hr
        subst hr
        rw [memcmpEq_iff] at hm
        exact absurd ((h2 d hd).symm.trans (hm d hd)) hdiff
      · rfl
    have hne : (startSlot g B + 1) % g.kMaxStackTraces ≠ startSlot g A := by
      rw [← hi]
      exact pos_ne_start hiB (by omega) (by omega)
    have hfree : slotTest g s B ((startSlot g B + 1) % g.kMaxStackTraces) = SlotTest.free :=
      (slotTest_free_iff _ _ _ _).mpr (h3 _ hne)
    refine ⟨(startSlot g B + 1) % g.kMaxStackTraces, Nat.mod_lt _ hcap0, hne, ?_⟩
    rw [probe_first g s B 1 (by omega) ?_ (by rw [hfree]; simp), stopAt_free _ _ _ _ hfree]
    intro j hj
    have : j = 0 := by omega
    subst this
    rw [Nat.add_zero, Nat.mod_eq_of_lt hiB]
    exact hother
  · have hfree : slotTest g s B (startSlot g B) = SlotTest.free :=
      (slotTest_free_iff _ _ _ _).mpr (h3 _ hi)
    refine ⟨startSlot g B, hiB, hi, ?_⟩
    rw [probe_at_start g s B hcap0 (by rw [hfree]; simp), stopAt_free _ _ _ _ hfree]

/-- C3: on a fresh table with at least two slots, for traces `A` and `B` of
the same length that agree in every method id and line number except for the
line number of one frame `d`, handling `A` and then `B` leaves exactly two
occupied slots, one holding `A` and one holding `B`, each with count 1. -/
theorem line_numbers_distinguish (g : Globals) (a b : Bool) (A B : JVMPI_CallTrace) (d : Nat)
    (hcap : 2 ≤ g.kMaxStackTraces) (hA : Captured g A) (hB : Captured g B)
    (hn : A.num_frames = B.num_frames) (hd : (d : Int) < A.num_frames)
    (hline : (A.frames d).lineno ≠ (B.frames d).lineno)
    (hmeth : (A.frames d).method_id = (B.frames d).method_id)
    (hrest : ∀ k : Nat, (k : Int) < A.num_frames → k ≠ d → A.frames k = B.frames k) :
    ∃ i j, i < g.kMaxStackTraces ∧ j < g.kMaxStackTraces ∧ i ≠ j ∧
      ((run g (Start a b).1 (attached [A, B])).traces_ i).count = 1 ∧
      ((run g (Start a b).1 (attached [A, B])).traces_ j).count = 1 ∧
      Holds (run g (Start a b).1 (attached [A, B])) i A ∧
      Holds (run g (Start a b).1 (attached [A, B])) j B ∧
      ∀ k, k < g.kMaxStackTraces → k ≠ i → k ≠ j →
        ((run g (Start a b).1 (attached [A, B])).traces_ k).count = 0 := by
  have hcap0 : 0 < g.kMaxStackTraces := by omega
  have hs := OnlyRecord_first g a b A hcap0 hA
  have hdk : d < g.kMaxFramesToCapture := by have := hA.2.1; omega
  have hdiff : A.frames d ≠ B.frames d := fun h => hline (by rw [h])
  obtain ⟨p, hp, hpne, hprobe⟩ := second_trace_slot g _ A B hcap hs d hdk hdiff
  have hrun : run g (Start a b).1 (attached [A, B])
      = claimSlot (Handle g (Start a b).1 true A).1 B p := by
    show (Handle g (Handle g (Start a b).1 true A).1 true B).1 = _
    rw [Handle_captured g _ B hB.1, hprobe]
  obtain ⟨h1, h2, h3⟩ := hs
  rw [hrun]
  refine ⟨startSlot g A, p, Nat.mod_lt _ hcap0, hp, fun h => hpne h.symm, ?_, ?_, ?_, ?_, ?_⟩
  · simp [claimSlot, Function.update_noteq (Ne.symm hpne), h1]
  · simp [claimSlot, swap_of_free _ (h3 p hpne)]
  · refine ⟨?_, ?_, ?_⟩
    · simp [claimSlot, Function.update_noteq (Ne.symm hpne), h1]
    · simp [claimSlot, Function.update_noteq (Ne.symm hpne), h1]
    · intro k hk
      simp only [claimSlot, Function.update_noteq (Ne.symm hpne)]
      exact h2 k (by have := hA.2.1; omega)
  · refine ⟨?_, ?_, ?_⟩
    · simp [claimSlot]
    · simp [claimSlot]
    · intro k hk
      have hk2 : (k : Int) < B.num_frames := by omega
      simp [claimSlot, copyFrames_apply, hk2]
  · intro k _ hk1 hk2
    simp [claimSlot, Function.update_noteq hk2, h3 k hk1]

theorem line_numbers_distinguish_witness :
    ∃ i j, i < g4.kMaxStackTraces ∧ j < g4.kMaxStackTraces ∧ i ≠ j ∧
      ((run g4 (Start true true).1 (attached [traceA, traceB])).traces_ i).count = 1 ∧
      ((run g4 (Start true true).1 (attached [traceA, traceB])).traces_ j).count = 1 ∧
      Holds (run g4 (Start true true).1 (attached [traceA, traceB])) i traceA ∧
      Holds (run g4 (Start true true).1 (attached [traceA, traceB])) j traceB ∧
      ∀ k, k < g4.kMaxStackTraces → k ≠ i → k ≠ j →
        ((run g4 (Start true true).1 (attached [traceA, traceB])).traces_ k).count = 0 :=
  line_numbers_distinguish g4 true true traceA traceB 1 (by decide)
    ⟨by decide, by decide, by decide⟩ ⟨by decide, by decide, by decide⟩
    (by decide) (by decide) (by decide) (by decide)
    (fun k hk hne => by
      have h2 : (k : Int) < 2 := hk
      have h0 : k = 0 := by omega
      subst h0
      decide)

/-! ## Invariants of every reachable state -/

theorem Basic_cleared : Basic cleared := by
  intro i
  simp [cleared]

theorem Basic_bumpFailure (s : Profiler) (k : Nat) (h : Basic s) : Basic (bumpFailure s k) := h

theorem Basic_claimSlot (s : Profiler) (t : JVMPI_CallTrace) (p : Nat) (h : Basic s) :
    Basic (claimSlot s t p) := by
  intro i
  by_cases hi : i = p
  · subst hi
    simp only [claimSlot, Function.update_same]
    exact ⟨swap_nonneg _ (h i).1, fun _ => trivial⟩
  · simp only [claimSlot, Function.update_noteq hi]
    exact h i

theorem Basic_incrementSlot (s : Profiler) (p : Nat) (h : Basic s)
    (hp : (s.traces_ p).count ≠ 0) : Basic (incrementSlot s p) := by
  intro i
  by_cases hi : i = p
  · subst hi
    have h1 := (h i).1
    have h2 := (h i).2 hp
    simp only [incrementSlot, Function.update_same, NoBarrier_AtomicIncrement]
    exact ⟨by omega, fun _ => h2⟩
  · simp only [incrementSlot, Function.update_noteq hi]
    exact h i

theorem probeLoop_state (g : Globals) (s : Profiler) (t : JVMPI_CallTrace) (idx : Nat) :
    ∀ fuel i, (probeLoop g s t idx fuel i).1 = s ∨
      (∃ p, slotTest g s t p = SlotTest.free ∧
        probeLoop g s t idx fuel i = (claimSlot s t p, Outcome.inserted p)) ∨
      (∃ p, slotTest g s t p = SlotTest.same ∧
        probeLoop g s t idx fuel i = (incrementSlot s p, Outcome.aggregated p)) := by
  intro fuel
  induction fuel with
  | zero => intro i; left; rfl
  | succ f ih =>
    intro i
    rw [probeLoop]
    cases h : slotTest g s t i
    · right; left; exact ⟨i, h, rfl⟩
    · left; rfl
    · right; right; exact ⟨i, h, rfl⟩
    · simp only
      split
      · left; rfl
      · exact ih _

theorem Basic_probe (g : Globals) (s : Profiler) (t : JVMPI_CallTrace) (h : Basic s) :
    Basic (probe g s t).1 := by
  rcases probeLoop_state g s t (CalculateHash t 0 % g.kMaxStackTraces) g.kMaxStackTraces
    (CalculateHash t 0 % g.kMaxStackTraces) with h1 | ⟨p, _, h1⟩ | ⟨p, hp, h1⟩
  · unfold probe
    rw [h1]
    exact h
  · unfold probe
    rw [h1]
    exact Basic_claimSlot s t p h
  · unfold probe
    rw [h1]
    exact Basic_incrementSlot s p h ((slotTest_same_iff _ _ _ _).mp hp).1

theorem Basic_Handle (g : Globals) (s : Profiler) (env : Bool) (t : JVMPI_CallTrace)
    (h : Basic s) : Basic (Handle g s env t).1 := by
  unfold Handle
  split
  · exact h
  · split
    · simp only
      split
      · exact h
      · exact Basic_probe g _ t (Basic_bumpFailure s _ h)
    · exact Basic_probe g s t h

theorem Reachable_Basic (g : Globals) (s : Profiler) (h : Reachable g s) : Basic s := by
  induction h with
  | start a b => exact Basic_cleared
  | unattached s t _ ih => exact Basic_Handle g s false t ih
  | failed s t _ _ _ ih => exact Basic_Handle g s true t ih
  | captured s t _ _ ih => exact Basic_Handle g s true t ih

theorem Basic_run (g : Globals) :
    ∀ (l : List (Bool × JVMPI_CallTrace)) (s : Profiler), Basic s → Basic (run g s l) := by
  intro l
  induction l with
  | nil => intro s h; exact h
  | cons x l ih => intro s h; exact ih _ (Basic_Handle g s x.1 x.2 h)

/-- In a state that satisfies `Basic` the loop takes one of three exits: it
passes all slots and drops the sample, it claims a free slot, or it increments
the count of a slot that compares equal. -/
theorem probe_trichotomy (g : Globals) (s : Profiler) (t : JVMPI_CallTrace)
    (hcap : 0 < g.kMaxStackTraces) (hs : Basic s) :
    ((∀ j, j < g.kMaxStackTraces → slotTest g s t j = SlotTest.other) ∧
        probe g s t = (s, Outcome.dropped)) ∨
    (∃ m, m < g.kMaxStackTraces ∧
      (∀ j, j < m → slotTest g s t ((startSlot g t + j) % g.kMaxStackTraces) = SlotTest.other) ∧
      slotTest g s t ((startSlot g t + m) % g.kMaxStackTraces) = SlotTest.free ∧
      probe g s t = (claimSlot s t ((startSlot g t + m) % g.kMaxStackTraces),
        Outcome.inserted ((startSlot g t + m) % g.kMaxStackTraces))) ∨
    (∃ m, m < g.kMaxStackTraces ∧
      (∀ j, j < m → slotTest g s t ((startSlot g t + j) % g.kMaxStackTraces) = SlotTest.other) ∧
      slotTest g s t ((startSlot g t + m) % g.kMaxStackTraces) = SlotTest.same ∧
      probe g s t = (incrementSlot s ((startSlot g t + m) % g.kMaxStackTraces),
        Outcome.aggregated ((startSlot g t + m) % g.kMaxStackTraces))) := by
  rcases probe_cases g s t hcap with h | ⟨m, hm, hbefore, hstop, hp⟩
  · left; exact h
  · cases hc : slotTest g s t ((startSlot g t + m) % g.kMaxStackTraces)
    · right; left
      exact ⟨m, hm, hbefore, hc, by rw [hp, stopAt_free _ _ _ _ hc]⟩
    · exfalso
      obtain ⟨h1, _, h3⟩ := (slotTest_nullDeref_iff _ _ _ _).mp hc
      have := (hs _).2 h1
      rw [h3] at this
      cases this
    · right; right
      exact ⟨m, hm, hbefore, hc, by rw [hp, stopAt_same _ _ _ _ hc]⟩
    · exact absurd hc hstop

/-! ## One invocation on a successfully captured trace -/

theorem Holds_claimSlot_self (s : Profiler) (t : JVMPI_CallTrace) (p : Nat) :
    Holds (claimSlot s t p) p t := by
  refine ⟨by simp [claimSlot], by simp [claimSlot], ?_⟩
  intro k hk
  have hk2 : (k : Int) < t.num_frames := by omega
  simp [claimSlot, copyFrames_apply, hk2]

theorem Holds_claimSlot_of_ne (s : Profiler) (t u : JVMPI_CallTrace) (p i : Nat) (hi : i ≠ p)
    (h : Holds s i u) : Holds (claimSlot s t p) i u := by
  simpa [Holds, claimSlot, Function.update_noteq hi] using h

theorem slotTest_other_of_differs (g : Globals) (s : Profiler) (t : JVMPI_CallTrace) (i : Nat)
    (hs : Basic s) (hmax : t.num_frames ≤ (g.kMaxFramesToCapture : Int))
    (hocc : (s.traces_ i).count ≠ 0) (hd : ¬ Holds s i t) :
    slotTest g s t i = SlotTest.other := by
  cases hc : slotTest g s t i
  · exact absurd ((slotTest_free_iff _ _ _ _).mp hc) hocc
  · have h3 := ((slotTest_nullDeref_iff _ _ _ _).mp hc).2.2
    have := (hs i).2 hocc
    rw [h3] at this
    cases this
  · obtain ⟨_, hn, r, hr, hm⟩ := (slotTest_same_iff _ _ _ _).mp hc
    have hri := (hs i).2 hocc
    rw [hr] at hri
    simp only [Option.some.injEq] at hri
    subst hri
    rw [memcmpEq_iff] at hm
    exact absurd ⟨hn, hr, fun k hk => hm k (by omega)⟩ hd
  · rfl

/-- A trace that differs from every stored record, presented to a table
without free slot, is dropped and nothing changes. -/
theorem probe_full (g : Globals) (s : Profiler) (t : JVMPI_CallTrace)
    (hcap : 0 < g.kMaxStackTraces) (hs : Basic s)
    (hmax : t.num_frames ≤ (g.kMaxFramesToCapture : Int))
    (hfull : ∀ i, i < g.kMaxStackTraces → (s.traces_ i).count ≠ 0)
    (hdiff : ∀ i, i < g.kMaxStackTraces → ¬ Holds s i t) :
    probe g s t = (s, Outcome.dropped) := by
  rcases probe_cases g s t hcap with h | ⟨m, hm, _, hstop, _⟩
  · exact h.2
  · have hlt : (startSlot g t + m) % g.kMaxStackTraces < g.kMaxStackTraces := Nat.mod_lt _ hcap
    exact absurd (slotTest_other_of_differs g s t _ hs hmax (hfull _ hlt) (hdiff _ hlt)) hstop

/-- A trace that differs from every stored record, presented to a table with
a free slot, claims a free slot. -/
theorem probe_insert (g : Globals) (s : Profiler) (t : JVMPI_CallTrace)
    (hcap : 0 < g.kMaxStackTraces) (hs : Basic s)
    (hmax : t.num_frames ≤ (g.kMaxFramesToCapture : Int))
    (hfree : ∃ i, i < g.kMaxStackTraces ∧ (s.traces_ i).count = 0)
    (hdiff : ∀ i, i < g.kMaxStackTraces → (s.traces_ i).count ≠ 0 → ¬ Holds s i t) :
    ∃ p, p < g.kMaxStackTraces ∧ (s.traces_ p).count = 0 ∧
      probe g s t = (claimSlot s t p, Outcome.inserted p) := by
  rcases probe_trichotomy g s t hcap hs with h | ⟨m, _, _, hc, hp⟩ | ⟨m, _, _, hc, _⟩
  · obtain ⟨i, hi, hi0⟩ := hfree
    have := h.1 i hi
    rw [(slotTest_free_iff _ _ _ _).mpr hi0] at this
    cases this
  · exact ⟨_, Nat.mod_lt _ hcap, (slotTest_free_iff _ _ _ _).mp hc, hp⟩
  · have hlt : (startSlot g t + m) % g.kMaxStackTraces < g.kMaxStackTraces := Nat.mod_lt _ hcap
    have hocc := ((slotTest_same_iff _ _ _ _).mp hc).1
    rw [slotTest_other_of_differs g s t _ hs hmax hocc (hdiff _ hlt hocc)] at hc
    cases hc

/-! ## The sum of the counts -/

theorem sum_update_count (f : Nat → TraceData) (p : Nat) (v : TraceData) :
    ∀ n, ∑ i ∈ Finset.range n, (Function.update f p v i).count
      = if p < n then ∑ i ∈ Finset.range n, (f i).count - (f p).count + v.count
        else ∑ i ∈ Finset.range n, (f i).count := by
  intro n
  induction n with
  | zero => simp
  | succ n ih =>
    rw [Finset.sum_range_succ, Finset.sum_range_succ, ih]
    by_cases h1 : p < n
    · have h2 : p < n + 1 := by omega
      have h3 : n ≠ p := by omega
      rw [if_pos h1, if_pos h2, Function.update_noteq h3]
      ring
    · by_cases h2 : p = n
      · subst h2
        rw [if_neg h1, if_pos (Nat.lt_succ_self _), Function.update_same]
        ring
      · have h3 : ¬ p < n + 1 := by omega
        have h4 : n ≠ p := fun h => h2 h.symm
        rw [if_neg h1, if_neg h3, Function.update_noteq h4]

theorem totalCount_claimSlot (g : Globals) (s : Profiler) (t : JVMPI_CallTrace) (p : Nat)
    (hp : p < g.kMaxStackTraces) (h0 : (s.traces_ p).count = 0) :
    totalCount g (claimSlot s t p) = totalCount g s + 1 := by
  unfold totalCount
  simp only [claimSlot]
  rw [sum_update_count, if_pos hp, h0, swap_of_free 0 rfl]
  ring

theorem totalCount_incrementSlot (g : Globals) (s : Profiler) (p : Nat)
    (hp : p < g.kMaxStackTraces) :
    totalCount g (incrementSlot s p) = totalCount g s + 1 := by
  unfold totalCount
  simp only [incrementSlot, NoBarrier_AtomicIncrement]
  rw [sum_update_count, if_pos hp]
  ring

theorem run_append (g : Globals) :
    ∀ (l m : List (Bool × JVMPI_CallTrace)) (s : Profiler),
      run g s (l ++ m) = run g (run g s l) m := by
  intro l
  induction l with
  | nil => intro m s; rfl
  | cons x l ih => intro m s; exact ih m _

theorem runLog_append (g : Globals) :
    ∀ (l m : List (Bool × JVMPI_CallTrace)) (s : Profiler),
      runLog g s (l ++ m) = runLog g s l ++ runLog g (run g s l) m := by
  intro l
  induction l with
  | nil => intro m s; rfl
  | cons x l ih =>
    intro m s
    show _ :: runLog g _ (l ++ m) = _ :: _
    rw [ih m _]
    rfl

theorem Reachable_run (g : Globals) :
    ∀ (l : List JVMPI_CallTrace) (s : Profiler), Reachable g s → (∀ t ∈ l, Captured g t) →
      Reachable g (run g s (attached l)) := by
  intro l
  induction l with
  | nil => intro s h _; exact h
  | cons t l ih =>
    intro s h hl
    exact ih _ (Reachable.captured s t h (hl t (List.mem_cons_self _ _)))
      (fun u hu => hl u (List.mem_cons_of_mem _ hu))

/-- C4: in a reachable state in which all `kMaxStackTraces` slots are
occupied, the handler invoked with a successfully captured trace `T` that
differs from every stored record leaves the loop after it has passed every
slot (exit `dropped`), and the whole state, that is every slot of `traces_`,
every row of `frame_buffer_` and every failure counter, is as before. -/
theorem full_table_drop (g : Globals) (s : Profiler) (T : JVMPI_CallTrace)
    (hcap : 0 < g.kMaxStackTraces) (hs : Reachable g s) (hT : Captured g T)
    (hfull : ∀ i, i < g.kMaxStackTraces → 0 < (s.traces_ i).count)
    (hdiff : ∀ i, i < g.kMaxStackTraces → ¬ Holds s i T) :
    Handle g s true T = (s, Outcome.dropped) := by
  rw [Handle_captured g s T hT.1]
  exact probe_full g s T hcap (Reachable_Basic g s hs) hT.2.1
    (fun i hi => by have := hfull i hi; omega) hdiff

theorem full_table_drop_witness :
    Handle g4 (run g4 (Start true true).1 (attached [traceA, traceB, traceC, traceD])) true traceE
      = (run g4 (Start true true).1 (attached [traceA, traceB, traceC, traceD]),
          Outcome.dropped) :=
  full_table_drop g4 (run g4 (Start true true).1 (attached [traceA, traceB, traceC, traceD]))
    traceE (by decide)
    (Reachable_run g4 [traceA, traceB, traceC, traceD] _ (Reachable.start true true)
      (by
        intro t ht
        simp only [List.mem_cons, List.mem_singleton, List.not_mem_nil, or_false] at ht
        rcases ht with rfl | rfl | rfl | rfl <;> exact ⟨by decide, by decide, by decide⟩))
    ⟨by decide, by decide, by decide⟩ (by decide) (by decide)

/-! ## Conservation of the counts -/

theorem Handle_step_count (g : Globals) (s : Profiler) (t : JVMPI_CallTrace)
    (hcap : 0 < g.kMaxStackTraces) (hs : Basic s) (ht : 0 ≤ t.num_frames) :
    totalCount g (Handle g s true t).1
        = totalCount g s + (if kept (Handle g s true t).2 then 1 else 0) ∧
      ((Handle g s true t).2 = Outcome.dropped ∨
        (∃ p, (Handle g s true t).2 = Outcome.inserted p) ∨
        (∃ p, (Handle g s true t).2 = Outcome.aggregated p)) := by
  rw [Handle_captured g s t ht]
  rcases probe_trichotomy g s t hcap hs with h | ⟨m, _, _, hc, hp⟩ | ⟨m, _, _, _, hp⟩
  · rw [h.2]
    exact ⟨by simp [kept], Or.inl rfl⟩
  · rw [hp]
    refine ⟨?_, Or.inr (Or.inl ⟨_, rfl⟩)⟩
    simp only [kept, if_true]
    exact totalCount_claimSlot g s t _ (Nat.mod_lt _ hcap) ((slotTest_free_iff _ _ _ _).mp hc)
  · rw [hp]
    refine ⟨?_, Or.inr (Or.inr ⟨_, rfl⟩)⟩
    simp only [kept, if_true]
    exact totalCount_incrementSlot g s _ (Nat.mod_lt _ hcap)

theorem run_count (g : Globals) (hcap : 0 < g.kMaxStackTraces) :
    ∀ (l : List JVMPI_CallTrace) (s : Profiler), Basic s → (∀ t ∈ l, 0 ≤ t.num_frames) →
      totalCount g (run g s (attached l))
          = totalCount g s + ((runLog g s (attached l)).filter kept).length ∧
        ∀ o ∈ runLog g s (attached l),
          o = Outcome.dropped ∨ (∃ p, o = Outcome.inserted p) ∨ (∃ p, o = Outcome.aggregated p) := by
  intro l
  induction l with
  | nil => intro s _ _; simp [attached, run, runLog]
  | cons t l ih =>
    intro s hs hl
    have ht := hl t (List.mem_cons_self _ _)
    obtain ⟨h1, h2⟩ := Handle_step_count g s t hcap hs ht
    obtain ⟨h3, h4⟩ := ih (Handle g s true t).1 (Basic_Handle g s true t hs)
      (fun u hu => hl u (List.mem_cons_of_mem _ hu))
    have hrun : run g s (attached (t :: l)) = run g (Handle g s true t).1 (attached l) := rfl
    have hlog : runLog g s (attached (t :: l))
        = (Handle g s true t).2 :: runLog g (Handle g s true t).1 (attached l) := rfl
    rw [hrun, hlog]
    refine ⟨?_, ?_⟩
    · rw [h3, h1, List.filter_cons]
      split <;> simp
      ring
    · intro o ho
      rcases List.mem_cons.mp ho with rfl | ho
      · exact h2
      · exact h4 o ho

/-- C6: for sequential invocations on a fresh table whose captures all
succeed (frame count at least 0 and at most the depth `kMaxFramesToCapture`),
the sum of `count` over the slots equals the number of invocations that were
not dropped; every invocation leaves by claiming a free slot, by matching a
stored record or by dropping the sample, and one further such invocation
raises the sum by exactly 1 in the first two cases and by 0 in the third. -/
theorem count_conservation (g : Globals) (a b : Bool) (l : List JVMPI_CallTrace)
    (t : JVMPI_CallTrace) (hcap : 0 < g.kMaxStackTraces)
    (hl : ∀ u ∈ l, 0 ≤ u.num_frames ∧ u.num_frames ≤ (g.kMaxFramesToCapture : Int))
    (ht : 0 ≤ t.num_frames ∧ t.num_frames ≤ (g.kMaxFramesToCapture : Int)) :
    totalCount g (run g (Start a b).1 (attached l))
        = ((runLog g (Start a b).1 (attached l)).filter kept).length ∧
      (∀ o ∈ runLog g (Start a b).1 (attached l),
        o = Outcome.dropped ∨ (∃ p, o = Outcome.inserted p) ∨ (∃ p, o = Outcome.aggregated p)) ∧
      totalCount g (Handle g (run g (Start a b).1 (attached l)) true t).1
        = totalCount g (run g (Start a b).1 (attached l))
          + (if kept (Handle g (run g (Start a b).1 (attached l)) true t).2 then 1 else 0) ∧
      ((Handle g (run g (Start a b).1 (attached l)) true t).2 = Outcome.dropped ∨
        (∃ p, (Handle g (run g (Start a b).1 (attached l)) true t).2 = Outcome.inserted p) ∨
        (∃ p, (Handle g (run g (Start a b).1 (attached l)) true t).2 = Outcome.aggregated p)) := by
  have hB : Basic (Start a b).1 := Basic_cleared
  obtain ⟨h1, h2⟩ := run_count g hcap l (Start a b).1 hB (fun u hu => (hl u hu).1)
  obtain ⟨h3, h4⟩ := Handle_step_count g (run g (Start a b).1 (attached l)) t hcap
    (Basic_run g _ _ hB) ht.1
  refine ⟨?_, h2, h3, h4⟩
  rw [h1]
  simp [totalCount, Start, cleared]

theorem count_conservation_witness :
    totalCount g4 (run g4 (Start true true).1 (attached [traceA, traceB, traceA]))
        = ((runLog g4 (Start true true).1 (attached [traceA, traceB, traceA])).filter kept).length ∧
      (∀ o ∈ runLog g4 (Start true true).1 (attached [traceA, traceB, traceA]),
        o = Outcome.dropped ∨ (∃ p, o = Outcome.inserted p) ∨ (∃ p, o = Outcome.aggregated p)) ∧
      totalCount g4 (Handle g4 (run g4 (Start true true).1 (attached [traceA, traceB, traceA]))
          true traceC).1
        = totalCount g4 (run g4 (Start true true).1 (attached [traceA, traceB, traceA]))
          + (if kept (Handle g4 (run g4 (Start true true).1 (attached [traceA, traceB, traceA]))
              true traceC).2 then 1 else 0) ∧
      ((Handle g4 (run g4 (Start true true).1 (attached [traceA, traceB, traceA])) true traceC).2
          = Outcome.dropped ∨
        (∃ p, (Handle g4 (run g4 (Start true true).1 (attached [traceA, traceB, traceA]))
          true traceC).2 = Outcome.inserted p) ∨
        (∃ p, (Handle g4 (run g4 (Start true true).1 (attached [traceA, traceB, traceA]))
          true traceC).2 = Outcome.aggregated p)) :=
  count_conservation g4 true true [traceA, traceB, traceA] traceC (by decide)
    (by
      intro u hu
      simp only [List.mem_cons, List.mem_singleton, List.not_mem_nil, or_false] at hu
      rcases hu with rfl | rfl | rfl <;> exact ⟨by decide, by decide⟩)
    ⟨by decide, by decide⟩

/-! ## Filling the table with pairwise different traces -/

theorem sum_zero_one (f : Nat → Int) :
    ∀ n, (∀ i, i < n → f i = 0 ∨ f i = 1) →
      ∑ i ∈ Finset.range n, f i ≤ n ∧
        (∑ i ∈ Finset.range n, f i = n → ∀ i, i < n → f i = 1) := by
  intro n
  induction n with
  | zero => intro _; simp
  | succ n ih =>
    intro h
    obtain ⟨h1, h2⟩ := ih (fun i hi => h i (by omega))
    rw [Finset.sum_range_succ]
    have hn := h n (by omega)
    refine ⟨by push_cast; omega, ?_⟩
    intro hsum i hi
    push_cast at hsum
    have hfn : f n = 1 := by omega
    by_cases hin : i = n
    · rw [hin]; exact hfn
    · exact h2 (by omega) i (by omega)

theorem Filled_full (g : Globals) (s : Profiler) (done : List JVMPI_CallTrace)
    (h : Filled g s done) (hlen : done.length = g.kMaxStackTraces) :
    ∀ i, i < g.kMaxStackTraces → (s.traces_ i).count = 1 := by
  obtain ⟨_, h2, h3, _⟩ := h
  have := (sum_zero_one (fun i => (s.traces_ i).count) g.kMaxStackTraces h2).2
  apply this
  unfold totalCount at h3
  rw [h3, hlen]

theorem Filled_free (g : Globals) (s : Profiler) (done : List JVMPI_CallTrace)
    (h : Filled g s done) (hlen : done.length < g.kMaxStackTraces) :
    ∃ i, i < g.kMaxStackTraces ∧ (s.traces_ i).count = 0 := by
  by_contra hne
  obtain ⟨_, h2, h3, _⟩ := h
  have hall : ∀ i, i < g.kMaxStackTraces → (s.traces_ i).count = 1 := by
    intro i hi
    rcases h2 i hi with h0 | h1
    · exact absurd ⟨i, hi, h0⟩ hne
    · exact h1
  have hsum : totalCount g s = g.kMaxStackTraces := by
    unfold totalCount
    rw [Finset.sum_congr rfl (fun i hi => hall i (Finset.mem_range.mp hi))]
    simp
  rw [h3] at hsum
  have : done.length = g.kMaxStackTraces := by exact_mod_cast hsum
  omega

theorem SameTrace_of_Holds (s : Profiler) (i : Nat) (u t : JVMPI_CallTrace)
    (hu : Holds s i u) (ht : Holds s i t) : SameTrace u t := by
  refine ⟨hu.1.symm.trans ht.1, ?_⟩
  intro k hk
  have hn : u.num_frames = t.num_frames := hu.1.symm.trans ht.1
  rw [← hu.2.2 k hk, ht.2.2 k (by rw [← hn]; exact hk)]

theorem Filled_step (g : Globals) (s : Profiler) (done : List JVMPI_CallTrace)
    (t : JVMPI_CallTrace) (hcap : 0 < g.kMaxStackTraces) (h : Filled g s done)
    (hlen : done.length < g.kMaxStackTraces) (ht : Captured g t)
    (hnew : ∀ u ∈ done, ¬ SameTrace u t) :
    ∃ p, Handle g s true t = (claimSlot s t p, Outcome.inserted p) ∧
      Filled g (claimSlot s t p) (done ++ [t]) := by
  have hdiff : ∀ i, i < g.kMaxStackTraces → (s.traces_ i).count ≠ 0 → ¬ Holds s i t := by
    intro i hi hocc hH
    obtain ⟨u, hu, hHu⟩ := h.2.2.2 i hi hocc
    exact hnew u hu (SameTrace_of_Holds s i u t hHu hH)
  obtain ⟨p, hp, hp0, hprobe⟩ :=
    probe_insert g s t hcap h.1 ht.2.1 (Filled_free g s done h hlen) hdiff
  refine ⟨p, by rw [Handle_captured g s t ht.1, hprobe], Basic_claimSlot s t p h.1, ?_, ?_, ?_⟩
  · intro i hi
    by_cases hip : i = p
    · subst hip
      right
      simp [claimSlot, swap_of_free _ hp0]
    · simp only [claimSlot, Function.update_noteq hip]
      exact h.2.1 i hi
  · rw [totalCount_claimSlot g s t p hp hp0, h.2.2.1]
    simp
  · intro i hi hocc
    by_cases hip : i = p
    · subst hip
      exact ⟨t, by simp, Holds_claimSlot_self s t i⟩
    · have hocc2 : (s.traces_ i).count ≠ 0 := by
        simpa [claimSlot, Function.update_noteq hip] using hocc
      obtain ⟨u, hu, hHu⟩ := h.2.2.2 i hi hocc2
      exact ⟨u, by simp [hu], Holds_claimSlot_of_ne s t u p i hip hHu⟩

theorem Filled_run (g : Globals) (hcap : 0 < g.kMaxStackTraces) :
    ∀ (rest done : List JVMPI_CallTrace) (s : Profiler), Filled g s done →
      done.length + rest.length ≤ g.kMaxStackTraces →
      (∀ t ∈ rest, Captured g t) →
      rest.Pairwise (fun t u => ¬ SameTrace t u) →
      (∀ u ∈ done, ∀ t ∈ rest, ¬ SameTrace u t) →
      Filled g (run g s (attached rest)) (done ++ rest) ∧
        ∃ ps : List Nat, ps.length = rest.length ∧
          runLog g s (attached rest) = ps.map Outcome.inserted := by
  intro rest
  induction rest with
  | nil =>
    intro done s h _ _ _ _
    exact ⟨by simpa [attached, run] using h, [], rfl, rfl⟩
  | cons t rest ih =>
    intro done s h hlen hcapt hpair hcross
    have hlen1 : done.length < g.kMaxStackTraces := by
      simp only [List.length_cons] at hlen
      omega
    obtain ⟨p, hH, hF⟩ := Filled_step g s done t hcap h hlen1
      (hcapt t (List.mem_cons_self _ _)) (fun u hu => hcross u hu t (List.mem_cons_self _ _))
    have hpair2 := List.pairwise_cons.mp hpair
    obtain ⟨hF2, ps, hps, hlog⟩ := ih (done ++ [t]) (claimSlot s t p) hF
      (by simp only [List.length_append, List.length_cons, List.length_nil] at hlen ⊢; omega)
      (fun u hu => hcapt u (List.mem_cons_of_mem _ hu)) hpair2.2
      (by
        intro u hu v hv
        rcases List.mem_append.mp hu with hu | hu
        · exact hcross u hu v (List.mem_cons_of_mem _ hv)
        · rw [List.mem_singleton.mp hu]
          exact hpair2.1 v hv)
    have hrun : run g s (attached (t :: rest)) = run g (Handle g s true t).1 (attached rest) := rfl
    have hlog2 : runLog g s (attached (t :: rest))
        = (Handle g s true t).2 :: runLog g (Handle g s true t).1 (attached rest) := rfl
    rw [hrun, hlog2, hH]
    refine ⟨by simpa using hF2, p :: ps, by simp [hps], ?_⟩
    simp [hlog]

theorem Filled_cleared (g : Globals) : Filled g cleared [] := by
  refine ⟨Basic_cleared, fun i _ => Or.inl rfl, by simp [totalCount, cleared], ?_⟩
  intro i _ h
  exact absurd rfl h

theorem fill_and_overflow (g : Globals) (hcap : 0 < g.kMaxStackTraces)
    (init : List JVMPI_CallTrace) (last : JVMPI_CallTrace)
    (hlen : init.length = g.kMaxStackTraces)
    (hl : ∀ t ∈ init ++ [last], Captured g t)
    (hdist : (init ++ [last]).Pairwise (fun t u => ¬ SameTrace t u)) :
    (∀ i, i < g.kMaxStackTraces →
        ((run g cleared (attached (init ++ [last]))).traces_ i).count = 1) ∧
      ∃ ps : List Nat, ps.length = g.kMaxStackTraces ∧
        runLog g cleared (attached (init ++ [last]))
          = ps.map Outcome.inserted ++ [Outcome.dropped] := by
  obtain ⟨hp1, _, hp3⟩ := List.pairwise_append.mp hdist
  obtain ⟨hF, ps, hps, hlog⟩ := Filled_run g hcap init [] cleared (Filled_cleared g)
    (by simp [hlen]) (fun t ht => hl t (List.mem_append_left _ ht)) hp1
    (fun u hu => by cases hu)
  rw [List.nil_append] at hF
  have hone := Filled_full g _ init hF hlen
  have hlast : Handle g (run g cleared (attached init)) true last
      = (run g cleared (attached init), Outcome.dropped) := by
    have hc := hl last (List.mem_append_right _ (List.mem_singleton_self _))
    rw [Handle_captured g _ last hc.1]
    apply probe_full g _ last hcap hF.1 hc.2.1
    · intro i hi
      rw [hone i hi]
      decide
    · intro i hi hH
      obtain ⟨u, hu, hHu⟩ := hF.2.2.2 i hi (by rw [hone i hi]; decide)
      exact hp3 u hu last (List.mem_singleton_self _) (SameTrace_of_Holds _ i u last hHu hH)
  have hatt : attached (init ++ [last]) = attached init ++ [(true, last)] := by
    simp [attached]
  have hrun : run g cleared (attached (init ++ [last])) = run g cleared (attached init) := by
    rw [hatt, run_append]
    show (Handle g (run g cleared (attached init)) true last).1 = _
    rw [hlast]
  refine ⟨?_, ps, by rw [hps, hlen], ?_⟩
  · rw [hrun]
    exact hone
  · rw [hatt, runLog_append, hlog]
    show _ ++ [(Handle g (run g cleared (attached init)) true last).2] = _
    rw [hlast]

/-- C5: in a reachable state with a free slot, the handler invoked with a
successfully captured trace `T` that no occupied slot holds claims one free
slot `p`: afterwards slot `p` has count 1 and holds `T`, and every other slot,
every other row of `frame_buffer_` and the failure counters are unchanged.
Hence `kMaxStackTraces + 1` pairwise different traces presented to a fresh
table leave every slot with count 1; the first `kMaxStackTraces` invocations
each claim a slot and the last one is dropped. -/
theorem new_trace_claims_free_slot (g : Globals) (s : Profiler) (T : JVMPI_CallTrace)
    (a b : Bool) (l : List JVMPI_CallTrace)
    (hcap : 0 < g.kMaxStackTraces) (hs : Reachable g s) (hT : Captured g T)
    (hfree : ∃ i, i < g.kMaxStackTraces ∧ (s.traces_ i).count = 0)
    (hdiff : ∀ i, i < g.kMaxStackTraces → 0 < (s.traces_ i).count → ¬ Holds s i T)
    (hlen : l.length = g.kMaxStackTraces + 1) (hl : ∀ t ∈ l, Captured g t)
    (hdist : l.Pairwise (fun t u => ¬ SameTrace t u)) :
    (∃ p, p < g.kMaxStackTraces ∧ (s.traces_ p).count = 0 ∧
      (Handle g s true T).2 = Outcome.inserted p ∧
      ((Handle g s true T).1.traces_ p).count = 1 ∧
      Holds (Handle g s true T).1 p T ∧
      (∀ j, j ≠ p → (Handle g s true T).1.traces_ j = s.traces_ j ∧
        (Handle g s true T).1.frame_buffer_ j = s.frame_buffer_ j) ∧
      (Handle g s true T).1.failures_ = s.failures_) ∧
    (∀ i, i < g.kMaxStackTraces → ((run g (Start a b).1 (attached l)).traces_ i).count = 1) ∧
    ∃ ps : List Nat, ps.length = g.kMaxStackTraces ∧
      runLog g (Start a b).1 (attached l) = ps.map Outcome.inserted ++ [Outcome.dropped] := by
  have hB := Reachable_Basic g s hs
  refine ⟨?_, ?_⟩
  · obtain ⟨p, hp, hp0, hprobe⟩ := probe_insert g s T hcap hB hT.2.1 hfree
      (fun i hi hocc => hdiff i hi (by have := (hB i).1; omega))
    rw [Handle_captured g s T hT.1, hprobe]
    refine ⟨p, hp, hp0, rfl, by simp [claimSlot, swap_of_free _ hp0],
      Holds_claimSlot_self s T p, ?_, rfl⟩
    intro j hj
    simp [claimSlot, Function.update_noteq hj]
  · rcases List.eq_nil_or_concat l with rfl | ⟨init, last, h⟩
    · simp at hlen
    · rw [List.concat_eq_append] at h
      subst h
      have hlen2 : init.length = g.kMaxStackTraces := by
        simp only [List.length_append, List.length_cons, List.length_nil] at hlen
        omega
      exact fill_and_overflow g hcap init last hlen2 hl hdist

theorem new_trace_claims_free_slot_witness :
    (∃ p, p < g4.kMaxStackTraces ∧
      ((run g4 (Start true true).1 (attached [traceA, traceB])).traces_ p).count = 0 ∧
      (Handle g4 (run g4 (Start true true).1 (attached [traceA, traceB])) true traceC).2
        = Outcome.inserted p ∧
      ((Handle g4 (run g4 (Start true true).1 (attached [traceA, traceB])) true traceC).1.traces_
        p).count = 1 ∧
      Holds (Handle g4 (run g4 (Start true true).1 (attached [traceA, traceB])) true traceC).1
        p traceC ∧
      (∀ j, j ≠ p →
        (Handle g4 (run g4 (Start true true).1 (attached [traceA, traceB])) true traceC).1.traces_ j
          = (run g4 (Start true true).1 (attached [traceA, traceB])).traces_ j ∧
        (Handle g4 (run g4 (Start true true).1 (attached [traceA, traceB])) true
            traceC).1.frame_buffer_ j
          = (run g4 (Start true true).1 (attached [traceA, traceB])).frame_buffer_ j) ∧
      (Handle g4 (run g4 (Start true true).1 (attached [traceA, traceB])) true traceC).1.failures_
        = (run g4 (Start true true).1 (attached [traceA, traceB])).failures_) ∧
    (∀ i, i < g4.kMaxStackTraces →
      ((run g4 (Start true true).1
        (attached [traceA, traceB, traceC, traceD, traceE])).traces_ i).count = 1) ∧
    ∃ ps : List Nat, ps.length = g4.kMaxStackTraces ∧
      runLog g4 (Start true true).1 (attached [traceA, traceB, traceC, traceD, traceE])
        = ps.map Outcome.inserted ++ [Outcome.dropped] :=
  new_trace_claims_free_slot g4 (run g4 (Start true true).1 (attached [traceA, traceB])) traceC
    true true [traceA, traceB, traceC, traceD, traceE] (by decide)
    (Reachable_run g4 [traceA, traceB] _ (Reachable.start true true)
      (by
        intro t ht
        simp only [List.mem_cons, List.mem_singleton, List.not_mem_nil, or_false] at ht
        rcases ht with rfl | rfl <;> exact ⟨by decide, by decide, by decide⟩))
    ⟨by decide, by decide, by decide⟩ ⟨1, by decide, by decide⟩ (by decide) (by decide)
    (by
      intro t ht
      simp only [List.mem_cons, List.mem_singleton, List.not_mem_nil, or_false] at ht
      rcases ht with rfl | rfl | rfl | rfl | rfl <;> exact ⟨by decide, by decide, by decide⟩)
    (by decide)

/-! ## The invariant of the table -/

theorem SameTrace_symm (t u : JVMPI_CallTrace) (h : SameTrace t u) : SameTrace u t :=
  ⟨h.1.symm, fun k hk => (h.2 k (by rw [h.1]; exact hk)).symm⟩

theorem SameTrace_trans (t u v : JVMPI_CallTrace) (h1 : SameTrace t u) (h2 : SameTrace u v) :
    SameTrace t v :=
  ⟨h1.1.trans h2.1, fun k hk => (h1.2 k hk).trans (h2.2 k (by rw [← h1.1]; exact hk))⟩

theorem startSlot_congr (g : Globals) (t u : JVMPI_CallTrace) (h : SameTrace t u) :
    startSlot g t = startSlot g u := by
  unfold startSlot
  rw [CalculateHash_congr t u 0 h.1 (fun k hk => h.2 k (by omega))]

theorem stored_claimSlot_self (s : Profiler) (t : JVMPI_CallTrace) (p : Nat) :
    SameTrace t (stored (claimSlot s t p) p) := by
  refine ⟨by simp [stored, claimSlot], ?_⟩
  intro k hk
  have hk2 : (k : Int) < t.num_frames := by omega
  simp [stored, claimSlot, copyFrames_apply, hk2]

theorem stored_claimSlot_of_ne (s : Profiler) (t : JVMPI_CallTrace) (p i : Nat) (hi : i ≠ p) :
    stored (claimSlot s t p) i = stored s i := by
  simp [stored, claimSlot, Function.update_noteq hi]

theorem count_claimSlot_ne_zero (s : Profiler) (t : JVMPI_CallTrace) (p i : Nat)
    (h : (s.traces_ i).count ≠ 0) : ((claimSlot s t p).traces_ i).count ≠ 0 := by
  by_cases hi : i = p
  · subst hi
    simp only [claimSlot, Function.update_same]
    exact swap_ne_zero _
  · simpa [claimSlot, Function.update_noteq hi] using h

theorem stored_incrementSlot (s : Profiler) (p i : Nat) :
    stored (incrementSlot s p) i = stored s i := by
  by_cases hi : i = p
  · subst hi
    simp [stored, incrementSlot]
  · simp [stored, incrementSlot, Function.update_noteq hi]

theorem count_incrementSlot_zero_iff (s : Profiler) (p i : Nat) (hB : Basic s)
    (hp : (s.traces_ p).count ≠ 0) :
    ((incrementSlot s p).traces_ i).count = 0 ↔ (s.traces_ i).count = 0 := by
  by_cases hi : i = p
  · subst hi
    have := (hB i).1
    simp only [incrementSlot, Function.update_same, NoBarrier_AtomicIncrement]
    constructor <;> intro h <;> omega
  · simp [incrementSlot, Function.update_noteq hi]

theorem TableInv_incrementSlot (g : Globals) (s : Profiler) (p : Nat) (hI : TableInv g s)
    (hp : (s.traces_ p).count ≠ 0) : TableInv g (incrementSlot s p) := by
  obtain ⟨hB, hZ, hC, hD⟩ := hI
  have hcz := fun i => count_incrementSlot_zero_iff s p i hB hp
  have hst := fun i => stored_incrementSlot s p i
  have hnf : ∀ i, ((incrementSlot s p).traces_ i).num_frames = (s.traces_ i).num_frames :=
    fun i => congrArg JVMPI_CallTrace.num_frames (hst i)
  refine ⟨Basic_incrementSlot s p hB hp, ?_, ?_, ?_⟩
  · intro i k hk h
    rw [hcz, hnf] at h
    exact hZ i k hk h
  · intro j hj hocc k hk hpos m hm
    rw [hst] at hpos ⊢
    rw [Ne, hcz] at hocc ⊢
    exact hC j hj hocc k hk hpos m hm
  · intro i j hi hj hoi hoj hsame
    rw [hst, hst] at hsame
    rw [Ne, hcz] at hoi hoj
    exact hD i j hi hj hoi hoj hsame

/-- When the loop reaches a free slot after `m` steps, no occupied slot stores
the incoming trace. -/
theorem no_copy_elsewhere (g : Globals) (s : Profiler) (t : JVMPI_CallTrace) (m j : Nat)
    (hcap : 0 < g.kMaxStackTraces) (hI : TableInv g s)
    (hz : ∀ k : Nat, k < g.kMaxFramesToCapture → t.num_frames ≤ (k : Int) →
      t.frames k = zeroFrame)
    (hbefore : ∀ k, k < m →
      slotTest g s t ((startSlot g t + k) % g.kMaxStackTraces) = SlotTest.other)
    (hfree : (s.traces_ ((startSlot g t + m) % g.kMaxStackTraces)).count = 0)
    (hj : j < g.kMaxStackTraces) (hocc : (s.traces_ j).count ≠ 0)
    (hsame : SameTrace t (stored s j)) : False := by
  obtain ⟨hB, hZ, hC, _⟩ := hI
  have hn : (s.traces_ j).num_frames = t.num_frames := hsame.1.symm
  have htest : slotTest g s t j = SlotTest.same := by
    rw [slotTest_same_iff]
    refine ⟨hocc, hn, j, (hB j).2 hocc, ?_⟩
    rw [memcmpEq_iff]
    intro k hk
    by_cases hkn : (k : Int) < t.num_frames
    · exact (hsame.2 k (by omega)).symm
    · rw [hZ j k hk (Or.inr (by omega)), hz k hk (by omega)]
  have hstart : startSlot g (stored s j) = startSlot g t :=
    (startSlot_congr g t (stored s j) hsame).symm
  have hi : startSlot g t < g.kMaxStackTraces := Nat.mod_lt _ hcap
  obtain ⟨d, hd, hdj⟩ := pos_surj hi hj
  have hchain := hC j hj hocc d hd (by rw [hstart]; exact hdj)
  rw [hstart] at hchain
  rcases Nat.lt_trichotomy m d with h | h | h
  · exact hchain m h hfree
  · rw [h, hdj] at hfree
    exact hocc hfree
  · have := hbefore d h
    rw [hdj, htest] at this
    cases this

theorem TableInv_claimSlot (g : Globals) (s : Profiler) (t : JVMPI_CallTrace) (m : Nat)
    (hcap : 0 < g.kMaxStackTraces) (hI : TableInv g s)
    (hz : ∀ k : Nat, k < g.kMaxFramesToCapture → t.num_frames ≤ (k : Int) →
      t.frames k = zeroFrame)
    (hm : m < g.kMaxStackTraces)
    (hbefore : ∀ k, k < m →
      slotTest g s t ((startSlot g t + k) % g.kMaxStackTraces) = SlotTest.other)
    (hfree : (s.traces_ ((startSlot g t + m) % g.kMaxStackTraces)).count = 0) :
    TableInv g (claimSlot s t ((startSlot g t + m) % g.kMaxStackTraces)) := by
  have hnone := fun j hj hocc hsame =>
    no_copy_elsewhere g s t m j hcap hI hz hbefore hfree hj hocc hsame
  obtain ⟨hB, hZ, hC, hD⟩ := hI
  have hi : startSlot g t < g.kMaxStackTraces := Nat.mod_lt _ hcap
  refine ⟨Basic_claimSlot s t _ hB, ?_, ?_, ?_⟩
  · intro i k hk h
    by_cases hip : i = (startSlot g t + m) % g.kMaxStackTraces
    · subst hip
      simp only [claimSlot, Function.update_same] at h ⊢
      have hk2 : ¬ (k : Int) < t.num_frames := by
        rcases h with h | h
        · exact absurd h (swap_ne_zero _)
        · omega
      rw [copyFrames_apply, if_neg hk2]
      exact hZ _ k hk (Or.inl hfree)
    · simp only [claimSlot, Function.update_noteq hip] at h ⊢
      exact hZ i k hk h
  · intro j hj hocc k hk hpos n hn
    by_cases hjp : j = (startSlot g t + m) % g.kMaxStackTraces
    · have hstart : startSlot g (stored (claimSlot s t j) j) = startSlot g t := by
        rw [hjp]
        exact (startSlot_congr g t _ (stored_claimSlot_self s t _)).symm
      rw [← hjp, hstart] at hpos ⊢
      have hkm : k = m := pos_inj hi hk hm (hpos.trans hjp)
      apply count_claimSlot_ne_zero
      have := hbefore n (by omega)
      intro h0
      rw [(slotTest_free_iff _ _ _ _).mpr h0] at this
      cases this
    · rw [stored_claimSlot_of_ne s t _ j hjp] at hpos ⊢
      have hocc2 : (s.traces_ j).count ≠ 0 := by
        simpa [claimSlot, Function.update_noteq hjp] using hocc
      exact count_claimSlot_ne_zero s t _ _ (hC j hj hocc2 k hk hpos n hn)
  · intro i j hi2 hj hoi hoj hsame
    by_cases hip : i = (startSlot g t + m) % g.kMaxStackTraces
    · by_cases hjp : j = (startSlot g t + m) % g.kMaxStackTraces
      · rw [hip, hjp]
      · exfalso
        have hoj2 : (s.traces_ j).count ≠ 0 := by
          simpa [claimSlot, Function.update_noteq hjp] using hoj
        rw [stored_claimSlot_of_ne s t _ j hjp, hip] at hsame
        exact hnone j hj hoj2
          (SameTrace_trans _ _ _ (stored_claimSlot_self s t _) hsame)
    · by_cases hjp : j = (startSlot g t + m) % g.kMaxStackTraces
      · exfalso
        have hoi2 : (s.traces_ i).count ≠ 0 := by
          simpa [claimSlot, Function.update_noteq hip] using hoi
        rw [stored_claimSlot_of_ne s t _ i hip, hjp] at hsame
        exact hnone i hi2 hoi2
          (SameTrace_trans _ _ _ (stored_claimSlot_self s t _) (SameTrace_symm _ _ hsame))
      · have hoi2 : (s.traces_ i).count ≠ 0 := by
          simpa [claimSlot, Function.update_noteq hip] using hoi
        have hoj2 : (s.traces_ j).count ≠ 0 := by
          simpa [claimSlot, Function.update_noteq hjp] using hoj
        rw [stored_claimSlot_of_ne s t _ i hip, stored_claimSlot_of_ne s t _ j hjp] at hsame
        exact hD i j hi2 hj hoi2 hoj2 hsame

theorem TableInv_cleared (g : Globals) : TableInv g cleared := by
  refine ⟨Basic_cleared, fun _ _ _ _ => rfl, ?_, ?_⟩
  · intro j _ hocc
    exact absurd rfl hocc
  · intro i _ _ _ hocc
    exact absurd rfl hocc

theorem TableInv_probe (g : Globals) (s : Profiler) (t : JVMPI_CallTrace)
    (hcap : 0 < g.kMaxStackTraces) (hI : TableInv g s)
    (hz : ∀ k : Nat, k < g.kMaxFramesToCapture → t.num_frames ≤ (k : Int) →
      t.frames k = zeroFrame) :
    TableInv g (probe g s t).1 := by
  rcases probe_trichotomy g s t hcap hI.1 with h | ⟨m, hm, hb, hc, hp⟩ | ⟨m, _, _, hc, hp⟩
  · rw [h.2]
    exact hI
  · rw [hp]
    exact TableInv_claimSlot g s t m hcap hI hz hm hb ((slotTest_free_iff _ _ _ _).mp hc)
  · rw [hp]
    exact TableInv_incrementSlot g s _ hI ((slotTest_same_iff _ _ _ _).mp hc).1

theorem TableInv_run (g : Globals) (hcap : 0 < g.kMaxStackTraces) :
    ∀ (l : List JVMPI_CallTrace) (s : Profiler), TableInv g s → (∀ t ∈ l, Captured g t) →
      TableInv g (run g s (attached l)) := by
  intro l
  induction l with
  | nil => intro s h _; exact h
  | cons t l ih =>
    intro s h hl
    have ht := hl t (List.mem_cons_self _ _)
    apply ih _ _ (fun u hu => hl u (List.mem_cons_of_mem _ hu))
    rw [Handle_captured g s t ht.1]
    exact TableInv_probe g s t hcap h ht.2.2

/-- C2: after `Start` and any sequence of sequential invocations with
successful captures, two different occupied slots never store the same frame
count together with field-wise identical frames; the frames of an occupied
slot `i` are those of row `i` of `frame_buffer_`, to which its `trace.frames`
points. -/
theorem no_duplicate_records (g : Globals) (a b : Bool) (l : List JVMPI_CallTrace) (i j : Nat)
    (hcap : 0 < g.kMaxStackTraces) (hl : ∀ t ∈ l, Captured g t)
    (hi : i < g.kMaxStackTraces) (hj : j < g.kMaxStackTraces) (hij : i ≠ j)
    (hoi : 0 < ((run g (Start a b).1 (attached l)).traces_ i).count)
    (hoj : 0 < ((run g (Start a b).1 (attached l)).traces_ j).count) :
    ((run g (Start a b).1 (attached l)).traces_ i).frames = some i ∧
    ((run g (Start a b).1 (attached l)).traces_ j).frames = some j ∧
    ¬ SameTrace (stored (run g (Start a b).1 (attached l)) i)
        (stored (run g (Start a b).1 (attached l)) j) := by
  obtain ⟨hB, _, _, hD⟩ := TableInv_run g hcap l (Start a b).1 (TableInv_cleared g) hl
  have hoi2 : ((run g (Start a b).1 (attached l)).traces_ i).count ≠ 0 := by omega
  have hoj2 : ((run g (Start a b).1 (attached l)).traces_ j).count ≠ 0 := by omega
  exact ⟨(hB i).2 hoi2, (hB j).2 hoj2, fun h => hij (hD i j hi hj hoi2 hoj2 h)⟩

theorem no_duplicate_records_witness :
    ((run g4 (Start true true).1 (attached [traceA, traceB, traceA])).traces_ 2).frames = some 2 ∧
    ((run g4 (Start true true).1 (attached [traceA, traceB, traceA])).traces_ 0).frames = some 0 ∧
    ¬ SameTrace (stored (run g4 (Start true true).1 (attached [traceA, traceB, traceA])) 2)
        (stored (run g4 (Start true true).1 (attached [traceA, traceB, traceA])) 0) :=
  no_duplicate_records g4 true true [traceA, traceB, traceA] 2 0 (by decide)
    (by
      intro t ht
      simp only [List.mem_cons, List.mem_singleton, List.not_mem_nil, or_false] at ht
      rcases ht with rfl | rfl | rfl <;> exact ⟨by decide, by decide, by decide⟩)
    (by decide) (by decide) (by decide) (by decide) (by decide)

/-! ## The invariant of the table in every reachable state -/

theorem no_copy_of_chain (g : Globals) (s : Profiler) (t : JVMPI_CallTrace) (m j : Nat)
    (hcap : 0 < g.kMaxStackTraces) (hI : ProbeInv g s)
    (hz : ∀ k : Nat, k < g.kMaxFramesToCapture → t.num_frames ≤ (k : Int) →
      t.frames k = zeroFrame)
    (hbefore : ∀ k, k < m →
      slotTest g s t ((startSlot g t + k) % g.kMaxStackTraces) = SlotTest.other)
    (hfree : (s.traces_ ((startSlot g t + m) % g.kMaxStackTraces)).count = 0)
    (hj : j < g.kMaxStackTraces) (hocc : (s.traces_ j).count ≠ 0)
    (hsame : SameTrace t (stored s j)) : False := by
  obtain ⟨hB, hZ, hC, _⟩ := hI
  have hn : (s.traces_ j).num_frames = t.num_frames := hsame.1.symm
  have htest : slotTest g s t j = SlotTest.same := by
    rw [slotTest_same_iff]
    refine ⟨hocc, hn, j, (hB j).2 hocc, ?_⟩
    rw [memcmpEq_iff]
    intro k hk
    by_cases hkn : (k : Int) < t.num_frames
    · exact (hsame.2 k (by omega)).symm
    · rw [hZ j k hk (Or.inr (by omega)), hz k hk (by omega)]
  have hstart : startSlot g (stored s j) = startSlot g t :=
    (startSlot_congr g t (stored s j) hsame).symm
  have hi : startSlot g t < g.kMaxStackTraces := Nat.mod_lt _ hcap
  obtain ⟨d, hd, hdj⟩ := pos_surj hi hj
  have hchain := hC j hj hocc d hd (by rw [hstart]; exact hdj)
  rw [hstart] at hchain
  rcases Nat.lt_trichotomy m d with h | h | h
  · exact hchain m h hfree
  · rw [h, hdj] at hfree
    exact hocc hfree
  · have := hbefore d h
    rw [hdj, htest] at this
    cases this

theorem ProbeInv_claimSlot (g : Globals) (s : Profiler) (t : JVMPI_CallTrace) (m : Nat)
    (hcap : 0 < g.kMaxStackTraces) (hI : ProbeInv g s)
    (hz : 0 ≤ t.num_frames → ∀ k : Nat, k < g.kMaxFramesToCapture →
      t.num_frames ≤ (k : Int) → t.frames k = zeroFrame)
    (hm : m < g.kMaxStackTraces)
    (hbefore : ∀ k, k < m →
      slotTest g s t ((startSlot g t + k) % g.kMaxStackTraces) = SlotTest.other)
    (hfree : (s.traces_ ((startSlot g t + m) % g.kMaxStackTraces)).count = 0) :
    ProbeInv g (claimSlot s t ((startSlot g t + m) % g.kMaxStackTraces)) := by
  have hnone := fun (h0 : 0 ≤ t.num_frames) j hj hocc hsame =>
    no_copy_of_chain g s t m j hcap hI (hz h0) hbefore hfree hj hocc hsame
  obtain ⟨hB, hZ, hC, hD⟩ := hI
  have hi : startSlot g t < g.kMaxStackTraces := Nat.mod_lt _ hcap
  have hself := stored_claimSlot_self s t ((startSlot g t + m) % g.kMaxStackTraces)
  refine ⟨Basic_claimSlot s t _ hB, ?_, ?_, ?_⟩
  · intro i k hk h
    by_cases hip : i = (startSlot g t + m) % g.kMaxStackTraces
    · subst hip
      simp only [claimSlot, Function.update_same] at h ⊢
      have hk2 : ¬ (k : Int) < t.num_frames := by
        rcases h with h | h
        · exact absurd h (swap_ne_zero _)
        · omega
      rw [copyFrames_apply, if_neg hk2]
      exact hZ _ k hk (Or.inl hfree)
    · simp only [claimSlot, Function.update_noteq hip] at h ⊢
      exact hZ i k hk h
  · intro j hj hocc k hk hpos n hn
    by_cases hjp : j = (startSlot g t + m) % g.kMaxStackTraces
    · have hstart : startSlot g (stored (claimSlot s t j) j) = startSlot g t := by
        rw [hjp]
        exact (startSlot_congr g t _ hself).symm
      rw [← hjp, hstart] at hpos ⊢
      have hkm : k = m := pos_inj hi hk hm (hpos.trans hjp)
      apply count_claimSlot_ne_zero
      have := hbefore n (by omega)
      intro h0
      rw [(slotTest_free_iff _ _ _ _).mpr h0] at this
      cases this
    · rw [stored_claimSlot_of_ne s t _ j hjp] at hpos ⊢
      have hocc2 : (s.traces_ j).count ≠ 0 := by
        simpa [claimSlot, Function.update_noteq hjp] using hocc
      exact count_claimSlot_ne_zero s t _ _ (hC j hj hocc2 k hk hpos n hn)
  · intro i j hi2 hj hoi hoj hnn hsame
    by_cases hip : i = (startSlot g t + m) % g.kMaxStackTraces
    · by_cases hjp : j = (startSlot g t + m) % g.kMaxStackTraces
      · rw [hip, hjp]
      · exfalso
        have hoj2 : (s.traces_ j).count ≠ 0 := by
          simpa [claimSlot, Function.update_noteq hjp] using hoj
        have h0 : 0 ≤ t.num_frames := by
          rw [hip] at hnn
          simpa [claimSlot] using hnn
        rw [stored_claimSlot_of_ne s t _ j hjp, hip] at hsame
        exact hnone h0 j hj hoj2 (SameTrace_trans _ _ _ hself hsame)
    · by_cases hjp : j = (startSlot g t + m) % g.kMaxStackTraces
      · exfalso
        have hoi2 : (s.traces_ i).count ≠ 0 := by
          simpa [claimSlot, Function.update_noteq hip] using hoi
        have hnn2 : 0 ≤ (s.traces_ i).num_frames := by
          simpa [claimSlot, Function.update_noteq hip] using hnn
        rw [stored_claimSlot_of_ne s t _ i hip, hjp] at hsame
        have hsame2 := SameTrace_trans _ _ _ hself (SameTrace_symm _ _ hsame)
        have h0 : 0 ≤ t.num_frames := by
          have := hsame2.1
          simp only [stored] at this
          omega
        exact hnone h0 i hi2 hoi2 hsame2
      · have hoi2 : (s.traces_ i).count ≠ 0 := by
          simpa [claimSlot, Function.update_noteq hip] using hoi
        have hoj2 : (s.traces_ j).count ≠ 0 := by
          simpa [claimSlot, Function.update_noteq hjp] using hoj
        have hnn2 : 0 ≤ (s.traces_ i).num_frames := by
          simpa [claimSlot, Function.update_noteq hip] using hnn
        rw [stored_claimSlot_of_ne s t _ i hip, stored_claimSlot_of_ne s t _ j hjp] at hsame
        exact hD i j hi2 hj hoi2 hoj2 hnn2 hsame

theorem ProbeInv_incrementSlot (g : Globals) (s : Profiler) (p : Nat) (hI : ProbeInv g s)
    (hp : (s.traces_ p).count ≠ 0) : ProbeInv g (incrementSlot s p) := by
  obtain ⟨hB, hZ, hC, hD⟩ := hI
  have hcz := fun i => count_incrementSlot_zero_iff s p i hB hp
  have hst := fun i => stored_incrementSlot s p i
  have hnf : ∀ i, ((incrementSlot s p).traces_ i).num_frames = (s.traces_ i).num_frames :=
    fun i => congrArg JVMPI_CallTrace.num_frames (hst i)
  refine ⟨Basic_incrementSlot s p hB hp, ?_, ?_, ?_⟩
  · intro i k hk h
    rw [hcz, hnf] at h
    exact hZ i k hk h
  · intro j hj hocc k hk hpos m hm
    rw [hst] at hpos ⊢
    rw [Ne, hcz] at hocc ⊢
    exact hC j hj hocc k hk hpos m hm
  · intro i j hi hj hoi hoj hnn hsame
    rw [hst, hst] at hsame
    rw [Ne, hcz] at hoi hoj
    rw [hnf] at hnn
    exact hD i j hi hj hoi hoj hnn hsame

theorem ProbeInv_cleared (g : Globals) : ProbeInv g cleared := by
  refine ⟨Basic_cleared, fun _ _ _ _ => rfl, ?_, ?_⟩
  · intro j _ hocc
    exact absurd rfl hocc
  · intro i _ _ _ hocc
    exact absurd rfl hocc

theorem ProbeInv_probe (g : Globals) (s : Profiler) (t : JVMPI_CallTrace)
    (hcap : 0 < g.kMaxStackTraces) (hI : ProbeInv g s)
    (hz : 0 ≤ t.num_frames → ∀ k : Nat, k < g.kMaxFramesToCapture →
      t.num_frames ≤ (k : Int) → t.frames k = zeroFrame) :
    ProbeInv g (probe g s t).1 := by
  rcases probe_trichotomy g s t hcap hI.1 with h | ⟨m, hm, hb, hc, hp⟩ | ⟨m, _, _, hc, hp⟩
  · rw [h.2]
    exact hI
  · rw [hp]
    exact ProbeInv_claimSlot g s t m hcap hI hz hm hb ((slotTest_free_iff _ _ _ _).mp hc)
  · rw [hp]
    exact ProbeInv_incrementSlot g s _ hI ((slotTest_same_iff _ _ _ _).mp hc).1

theorem ProbeInv_bumpFailure (g : Globals) (s : Profiler) (k : Nat) (h : ProbeInv g s) :
    ProbeInv g (bumpFailure s k) := h

theorem Reachable_ProbeInv (g : Globals) (s : Profiler) (hcap : 0 < g.kMaxStackTraces)
    (h : Reachable g s) : ProbeInv g s := by
  induction h with
  | start a b => exact ProbeInv_cleared g
  | unattached s t _ ih =>
    have : Handle g s false t = (bumpFailure s 0, Outcome.notAttached) := by simp [Handle]
    rw [this]
    exact ProbeInv_bumpFailure g s 0 ih
  | failed s t _ _ hneg ih =>
    have hz : 0 ≤ t.num_frames → ∀ k : Nat, k < g.kMaxFramesToCapture →
        t.num_frames ≤ (k : Int) → t.frames k = zeroFrame := fun h0 => by omega
    unfold Handle
    simp only [Bool.true_eq_false, if_false, if_pos hneg]
    split
    · exact ih
    · exact ProbeInv_probe g _ t hcap (ProbeInv_bumpFailure g s _ ih) hz
  | captured s t _ hc ih =>
    rw [Handle_captured g s t hc.1]
    exact ProbeInv_probe g s t hcap ih (fun _ => hc.2.2)

/-! ## Aggregation of a known trace -/

theorem SameTrace_of_Holds_stored (s : Profiler) (j : Nat) (t : JVMPI_CallTrace)
    (h : Holds s j t) : SameTrace t (stored s j) :=
  ⟨h.1.symm, fun k hk => (h.2.2 k hk).symm⟩

theorem slotTest_same_of_Holds (g : Globals) (s : Profiler) (t : JVMPI_CallTrace) (j : Nat)
    (hI : ProbeInv g s) (ht : Captured g t) (hocc : (s.traces_ j).count ≠ 0)
    (hH : Holds s j t) : slotTest g s t j = SlotTest.same := by
  rw [slotTest_same_iff]
  refine ⟨hocc, hH.1, j, hH.2.1, ?_⟩
  rw [memcmpEq_iff]
  intro k hk
  by_cases hkn : (k : Int) < t.num_frames
  · exact hH.2.2 k (by omega)
  · rw [hI.2.1 j k hk (Or.inr (by rw [hH.1]; omega)), ht.2.2 k hk (by omega)]

theorem Holds_of_slotTest_same (g : Globals) (s : Profiler) (t : JVMPI_CallTrace) (j : Nat)
    (hB : Basic s) (hmax : t.num_frames ≤ (g.kMaxFramesToCapture : Int))
    (h : slotTest g s t j = SlotTest.same) : Holds s j t := by
  obtain ⟨hocc, hn, r, hr, hm⟩ := (slotTest_same_iff _ _ _ _).mp h
  have hri := (hB j).2 hocc
  rw [hr] at hri
  simp only [Option.some.injEq] at hri
  subst hri
  rw [memcmpEq_iff] at hm
  exact ⟨hn, hr, fun k hk => hm k (by omega)⟩

/-- A trace that some occupied slot `j` holds is aggregated into that slot. -/
theorem probe_known (g : Globals) (s : Profiler) (t : JVMPI_CallTrace) (j : Nat)
    (hcap : 0 < g.kMaxStackTraces) (hI : ProbeInv g s) (ht : Captured g t)
    (hj : j < g.kMaxStackTraces) (hocc : (s.traces_ j).count ≠ 0) (hH : Holds s j t) :
    probe g s t = (incrementSlot s j, Outcome.aggregated j) := by
  have hsame := SameTrace_of_Holds_stored s j t hH
  have hstart : startSlot g (stored s j) = startSlot g t :=
    (startSlot_congr g t (stored s j) hsame).symm
  have hi : startSlot g t < g.kMaxStackTraces := Nat.mod_lt _ hcap
  obtain ⟨d, hd, hdj⟩ := pos_surj hi hj
  have hchain := hI.2.2.1 j hj hocc d hd (by rw [hstart]; exact hdj)
  rw [hstart] at hchain
  have htest := slotTest_same_of_Holds g s t j hI ht hocc hH
  have hbefore : ∀ m, m < d →
      slotTest g s t ((startSlot g t + m) % g.kMaxStackTraces) = SlotTest.other := by
    intro m hm
    have hoccm := hchain m hm
    cases hc : slotTest g s t ((startSlot g t + m) % g.kMaxStackTraces)
    · exact absurd ((slotTest_free_iff _ _ _ _).mp hc) hoccm
    · have h3 := ((slotTest_nullDeref_iff _ _ _ _).mp hc).2.2
      have := (hI.1 _).2 hoccm
      rw [h3] at this
      cases this
    · exfalso
      have hHm := Holds_of_slotTest_same g s t _ hI.1 ht.2.1 hc
      have hsm : SameTrace (stored s ((startSlot g t + m) % g.kMaxStackTraces)) (stored s j) :=
        SameTrace_trans _ _ _ (SameTrace_symm _ _ (SameTrace_of_Holds_stored s _ t hHm)) hsame
      have hnn : 0 ≤ (s.traces_ ((startSlot g t + m) % g.kMaxStackTraces)).num_frames := by
        rw [hHm.1]
        exact ht.1
      have heq := hI.2.2.2 _ j (Nat.mod_lt _ hcap) hj hoccm hocc hnn hsm
      rw [← hdj] at heq
      have := pos_inj hi (by omega) hd heq
      omega
    · rfl
  rw [probe_first g s t d hd hbefore (by rw [hdj, htest]; simp), hdj,
    stopAt_same _ _ _ _ htest]

/-- C12: in every reachable state, also one in which all slots are occupied,
if an occupied slot `j` holds the successfully captured trace `T`, the handler
increments the count of slot `j` by exactly 1 and leaves every other slot, the
frame count and `trace.frames` of slot `j`, every row of `frame_buffer_` and
the failure counters as they were. -/
theorem full_table_aggregates (g : Globals) (s : Profiler) (T : JVMPI_CallTrace) (j : Nat)
    (hcap : 0 < g.kMaxStackTraces) (hs : Reachable g s) (hT : Captured g T)
    (hj : j < g.kMaxStackTraces) (hocc : 0 < (s.traces_ j).count) (hH : Holds s j T) :
    (Handle g s true T).2 = Outcome.aggregated j ∧
    ((Handle g s true T).1.traces_ j).count = (s.traces_ j).count + 1 ∧
    ((Handle g s true T).1.traces_ j).num_frames = (s.traces_ j).num_frames ∧
    ((Handle g s true T).1.traces_ j).frames = (s.traces_ j).frames ∧
    (∀ i, i ≠ j → (Handle g s true T).1.traces_ i = s.traces_ i) ∧
    (Handle g s true T).1.frame_buffer_ = s.frame_buffer_ ∧
    (Handle g s true T).1.failures_ = s.failures_ := by
  rw [Handle_captured g s T hT.1,
    probe_known g s T j hcap (Reachable_ProbeInv g s hcap hs) hT hj (by omega) hH]
  refine ⟨rfl, ?_, ?_, ?_, ?_, rfl, rfl⟩
  · simp [incrementSlot, NoBarrier_AtomicIncrement]
  · simp [incrementSlot]
  · simp [incrementSlot]
  · intro i hi
    simp [incrementSlot, Function.update_noteq hi]

theorem full_table_aggregates_witness :
    (Handle g4 (run g4 (Start true true).1 (attached [traceA, traceB, traceC, traceD]))
      true traceB).2 = Outcome.aggregated 0 ∧
    ((Handle g4 (run g4 (Start true true).1 (attached [traceA, traceB, traceC, traceD]))
      true traceB).1.traces_ 0).count
      = ((run g4 (Start true true).1 (attached [traceA, traceB, traceC, traceD])).traces_ 0).count
        + 1 ∧
    ((Handle g4 (run g4 (Start true true).1 (attached [traceA, traceB, traceC, traceD]))
      true traceB).1.traces_ 0).num_frames
      = ((run g4 (Start true true).1
          (attached [traceA, traceB, traceC, traceD])).traces_ 0).num_frames ∧
    ((Handle g4 (run g4 (Start true true).1 (attached [traceA, traceB, traceC, traceD]))
      true traceB).1.traces_ 0).frames
      = ((run g4 (Start true true).1 (attached [traceA, traceB, traceC, traceD])).traces_ 0).frames ∧
    (∀ i, i ≠ 0 →
      (Handle g4 (run g4 (Start true true).1 (attached [traceA, traceB, traceC, traceD]))
        true traceB).1.traces_ i
        = (run g4 (Start true true).1 (attached [traceA, traceB, traceC, traceD])).traces_ i) ∧
    (Handle g4 (run g4 (Start true true).1 (attached [traceA, traceB, traceC, traceD]))
      true traceB).1.frame_buffer_
      = (run g4 (Start true true).1 (attached [traceA, traceB, traceC, traceD])).frame_buffer_ ∧
    (Handle g4 (run g4 (Start true true).1 (attached [traceA, traceB, traceC, traceD]))
      true traceB).1.failures_
      = (run g4 (Start true true).1 (attached [traceA, traceB, traceC, traceD])).failures_ :=
  full_table_aggregates g4
    (run g4 (Start true true).1 (attached [traceA, traceB, traceC, traceD])) traceB 0
    (by decide)
    (Reachable_run g4 [traceA, traceB, traceC, traceD] _ (Reachable.start true true)
      (by
        intro t ht
        simp only [List.mem_cons, List.mem_singleton, List.not_mem_nil, or_false] at ht
        rcases ht with rfl | rfl | rfl | rfl <;> exact ⟨by decide, by decide, by decide⟩))
    ⟨by decide, by decide, by decide⟩ (by decide) (by decide) (by decide)

/-! ## Placement by linear probing -/

/-- C14: in every reachable state `s` (the state after `Start` and every state
that invocations lead to from it), with `kMaxStackTraces > 0`: whenever the
handler, invoked with a successfully captured trace `T`, inserts `T` at slot
`p`, then `p` is the first free slot in the cyclic order `start, start + 1, ...`
modulo `kMaxStackTraces`, with `start = CalculateHash(T, 0) % kMaxStackTraces`:
`p` is the slot `m` steps after `start`, it was free, and the slots fewer steps
after `start` were occupied. And whenever an occupied slot `j` of `s` holds a
trace `U` and lies `k` steps after the start slot of `U`, the slots up to `k`
steps after that start slot are all occupied. Neither half supposes the
other: the first holds also in a state with no occupied slot. -/
theorem linear_probing_placement (g : Globals) (s : Profiler)
    (hcap : 0 < g.kMaxStackTraces) (hs : Reachable g s) :
    (∀ (T : JVMPI_CallTrace) (p : Nat), Captured g T →
      (Handle g s true T).2 = Outcome.inserted p →
      ∃ m, m < g.kMaxStackTraces ∧
        p = (CalculateHash T 0 % g.kMaxStackTraces + m) % g.kMaxStackTraces ∧
        (s.traces_ p).count = 0 ∧
        ∀ n, n < m →
          0 < (s.traces_
            ((CalculateHash T 0 % g.kMaxStackTraces + n) % g.kMaxStackTraces)).count) ∧
    ∀ (U : JVMPI_CallTrace) (j k : Nat), j < g.kMaxStackTraces →
      0 < (s.traces_ j).count → Holds s j U → k < g.kMaxStackTraces →
      (CalculateHash U 0 % g.kMaxStackTraces + k) % g.kMaxStackTraces = j →
      ∀ n, n ≤ k →
        0 < (s.traces_
          ((CalculateHash U 0 % g.kMaxStackTraces + n) % g.kMaxStackTraces)).count := by
  have hI := Reachable_ProbeInv g s hcap hs
  have hpos0 : ∀ i, (s.traces_ i).count ≠ 0 → 0 < (s.traces_ i).count := by
    intro i h
    have := (hI.1 i).1
    omega
  refine ⟨?_, ?_⟩
  · intro T p hT hins
    rw [Handle_captured g s T hT.1] at hins
    rcases probe_trichotomy g s T hcap hI.1 with h | ⟨m, hm, hb, hc, hp⟩ | ⟨m, _, _, _, hp⟩
    · rw [h.2] at hins
      cases hins
    · rw [hp] at hins
      simp only [Outcome.inserted.injEq] at hins
      refine ⟨m, hm, hins.symm, ?_, ?_⟩
      · rw [← hins]
        exact (slotTest_free_iff _ _ _ _).mp hc
      · intro n hn
        apply hpos0
        intro h0
        have := hb n hn
        have h1 : slotTest g s T ((startSlot g T + n) % g.kMaxStackTraces) = SlotTest.free :=
          (slotTest_free_iff _ _ _ _).mpr h0
        rw [h1] at this
        cases this
    · rw [hp] at hins
      cases hins
  · intro U j k hj hocc hH hk hpos n hn
    have hsame := SameTrace_of_Holds_stored s j U hH
    have hstart : startSlot g (stored s j) = startSlot g U :=
      (startSlot_congr g U (stored s j) hsame).symm
    have hchain := hI.2.2.1 j hj (by omega) k hk (by rw [hstart]; exact hpos)
    rw [hstart] at hchain
    rcases Nat.lt_or_ge n k with h | h
    · exact hpos0 _ (hchain n h)
    · have : n = k := by omega
      rw [this]
      show 0 < (s.traces_ ((startSlot g U + k) % g.kMaxStackTraces)).count
      rw [show (startSlot g U + k) % g.kMaxStackTraces = j from hpos]
      exact hocc

theorem linear_probing_placement_witness :
    (0 < g4.kMaxStackTraces ∧ Reachable g4 (Start true true).1 ∧
      Captured g4 traceA ∧
      (Handle g4 (Start true true).1 true traceA).2 = Outcome.inserted 2 ∧
      ∃ m, m < g4.kMaxStackTraces ∧
        2 = (CalculateHash traceA 0 % g4.kMaxStackTraces + m) % g4.kMaxStackTraces ∧
        ((Start true true).1.traces_ 2).count = 0 ∧
        ∀ n, n < m →
          0 < ((Start true true).1.traces_
            ((CalculateHash traceA 0 % g4.kMaxStackTraces + n) % g4.kMaxStackTraces)).count) ∧
    (Reachable g4 (run g4 (Start true true).1 (attached [traceA, traceB, traceD])) ∧
      Captured g4 traceE ∧
      (Handle g4 (run g4 (Start true true).1 (attached [traceA, traceB, traceD]))
        true traceE).2 = Outcome.inserted 3 ∧
      ∃ m, m < g4.kMaxStackTraces ∧
        3 = (CalculateHash traceE 0 % g4.kMaxStackTraces + m) % g4.kMaxStackTraces ∧
        ((run g4 (Start true true).1 (attached [traceA, traceB, traceD])).traces_ 3).count = 0 ∧
        ∀ n, n < m →
          0 < ((run g4 (Start true true).1 (attached [traceA, traceB, traceD])).traces_
            ((CalculateHash traceE 0 % g4.kMaxStackTraces + n) % g4.kMaxStackTraces)).count) ∧
    (Holds (run g4 (Start true true).1 (attached [traceA, traceB, traceD])) 1 traceD ∧
      (CalculateHash traceD 0 % g4.kMaxStackTraces + 1) % g4.kMaxStackTraces = 1 ∧
      ∀ n, n ≤ 1 →
        0 < ((run g4 (Start true true).1 (attached [traceA, traceB, traceD])).traces_
          ((CalculateHash traceD 0 % g4.kMaxStackTraces + n) % g4.kMaxStackTraces)).count) :=
  have hr : Reachable g4 (run g4 (Start true true).1 (attached [traceA, traceB, traceD])) :=
    Reachable_run g4 [traceA, traceB, traceD] _ (Reachable.start true true)
      (by
        intro t ht
        simp only [List.mem_cons, List.mem_singleton, List.not_mem_nil, or_false] at ht
        rcases ht with rfl | rfl | rfl <;> exact ⟨by decide, by decide, by decide⟩)
  ⟨⟨by decide, Reachable.start true true, ⟨by decide, by decide, by decide⟩, by decide,
      (linear_probing_placement g4 (Start true true).1 (by decide)
        (Reachable.start true true)).1 traceA 2 ⟨by decide, by decide, by decide⟩ (by decide)⟩,
    ⟨hr, ⟨by decide, by decide, by decide⟩, by decide,
      (linear_probing_placement g4 _ (by decide) hr).1 traceE 3
        ⟨by decide, by decide, by decide⟩ (by decide)⟩,
    ⟨by decide, by decide,
      (linear_probing_placement g4 _ (by decide) hr).2 traceD 1 1 (by decide) (by decide)
        (by decide) (by decide) (by decide)⟩⟩

/-! ## The comparison of a slot with the incoming trace -/

theorem frame_eq_iff (a b : JVMPI_CallFrame) :
    a = b ↔ a.method_id = b.method_id ∧ a.lineno = b.lineno := by
  constructor
  · intro h
    rw [h]
    exact ⟨rfl, rfl⟩
  · intro h
    cases a
    cases b
    simp only [JVMPI_CallFrame.mk.injEq]
    exact ⟨h.2, h.1⟩

theorem fieldwiseMatch_iff (s : Profiler) (i : Nat) (t : JVMPI_CallTrace) :
    fieldwiseMatch s i t = true ↔
      (s.traces_ i).num_frames = t.num_frames ∧
        ∀ k : Nat, k < t.num_frames.toNat → s.frame_buffer_ i k = t.frames k := by
  simp only [fieldwiseMatch, Bool.and_eq_true, decide_eq_true_eq, List.all_eq_true,
    List.mem_range, frame_eq_iff]

/-- C16: in every reachable state, for an occupied slot `i` and a trace `T`
captured into the cleared local array with a frame count from 0 to
`kMaxFramesToCapture`, the test of the handler (equal `num_frames` and `memcmp`
over all `kMaxFramesToCapture` frames) succeeds exactly when the frame counts
are equal and the frames below the frame count agree in method id and line
number. The proof rests on two facts about reachable states, stated as well:
`trace.frames` of the slot is the address of row `i`, and row `i` is zero at
every index from `num_frames` of the slot on. -/
theorem bytewise_match_is_fieldwise (g : Globals) (s : Profiler) (T : JVMPI_CallTrace) (i : Nat)
    (hcap : 0 < g.kMaxStackTraces) (hs : Reachable g s) (hT : Captured g T)
    (hocc : 0 < (s.traces_ i).count) :
    (slotTest g s T i = SlotTest.same ↔ fieldwiseMatch s i T = true) ∧
    (s.traces_ i).frames = some i ∧
    ∀ k, k < g.kMaxFramesToCapture → (s.traces_ i).num_frames ≤ (k : Int) →
      s.frame_buffer_ i k = zeroFrame := by
  have hI := Reachable_ProbeInv g s hcap hs
  have hne : (s.traces_ i).count ≠ 0 := by omega
  have hptr := (hI.1 i).2 hne
  refine ⟨?_, hptr, fun k hk h => hI.2.1 i k hk (Or.inr h)⟩
  rw [fieldwiseMatch_iff]
  constructor
  · intro h
    have hH := Holds_of_slotTest_same g s T i hI.1 hT.2.1 h
    exact ⟨hH.1, hH.2.2⟩
  · intro h
    exact slotTest_same_of_Holds g s T i hI hT hne ⟨h.1, hptr, h.2⟩

theorem bytewise_match_is_fieldwise_witness :
    (slotTest g4 (run g4 (Start true true).1 (attached [traceA, traceB])) traceA 2
        = SlotTest.same ↔
      fieldwiseMatch (run g4 (Start true true).1 (attached [traceA, traceB])) 2 traceA = true) ∧
    ((run g4 (Start true true).1 (attached [traceA, traceB])).traces_ 2).frames = some 2 ∧
    ∀ k, k < g4.kMaxFramesToCapture →
      ((run g4 (Start true true).1 (attached [traceA, traceB])).traces_ 2).num_frames ≤ (k : Int) →
      (run g4 (Start true true).1 (attached [traceA, traceB])).frame_buffer_ 2 k = zeroFrame :=
  bytewise_match_is_fieldwise g4 (run g4 (Start true true).1 (attached [traceA, traceB]))
    traceA 2 (by decide)
    (Reachable_run g4 [traceA, traceB] _ (Reachable.start true true)
      (by
        intro t ht
        simp only [List.mem_cons, List.mem_singleton, List.not_mem_nil, or_false] at ht
        rcases ht with rfl | rfl <;> exact ⟨by decide, by decide, by decide⟩))
    ⟨by decide, by decide, by decide⟩ (by decide)

/-! ## Slots are written once -/

theorem probe_effect (g : Globals) (s : Profiler) (t : JVMPI_CallTrace) :
    (probe g s t).1 = s ∨
      (∃ p, (s.traces_ p).count = 0 ∧ (probe g s t).1 = claimSlot s t p) ∨
      (∃ p, (s.traces_ p).count ≠ 0 ∧ (probe g s t).1 = incrementSlot s p) := by
  rcases probeLoop_state g s t (CalculateHash t 0 % g.kMaxStackTraces) g.kMaxStackTraces
    (CalculateHash t 0 % g.kMaxStackTraces) with h | ⟨p, hp, h⟩ | ⟨p, hp, h⟩
  · left
    exact h
  · right; left
    refine ⟨p, (slotTest_free_iff _ _ _ _).mp hp, ?_⟩
    show (probeLoop g s t _ _ _).1 = _
    rw [h]
  · right; right
    refine ⟨p, ((slotTest_same_iff _ _ _ _).mp hp).1, ?_⟩
    show (probeLoop g s t _ _ _).1 = _
    rw [h]

theorem Handle_effect (g : Globals) (s : Profiler) (env : Bool) (t : JVMPI_CallTrace) :
    ((Handle g s env t).1.traces_ = s.traces_ ∧
        (Handle g s env t).1.frame_buffer_ = s.frame_buffer_) ∨
      (∃ p, (s.traces_ p).count = 0 ∧
        (Handle g s env t).1.traces_ = (claimSlot s t p).traces_ ∧
        (Handle g s env t).1.frame_buffer_ = (claimSlot s t p).frame_buffer_) ∨
      (∃ p, (s.traces_ p).count ≠ 0 ∧
        (Handle g s env t).1.traces_ = (incrementSlot s p).traces_ ∧
        (Handle g s env t).1.frame_buffer_ = s.frame_buffer_) := by
  have key : ∀ s0 : Profiler, s0.traces_ = s.traces_ → s0.frame_buffer_ = s.frame_buffer_ →
      (((probe g s0 t).1.traces_ = s.traces_ ∧
        (probe g s0 t).1.frame_buffer_ = s.frame_buffer_) ∨
      (∃ p, (s.traces_ p).count = 0 ∧
        (probe g s0 t).1.traces_ = (claimSlot s t p).traces_ ∧
        (probe g s0 t).1.frame_buffer_ = (claimSlot s t p).frame_buffer_) ∨
      (∃ p, (s.traces_ p).count ≠ 0 ∧
        (probe g s0 t).1.traces_ = (incrementSlot s p).traces_ ∧
        (probe g s0 t).1.frame_buffer_ = s.frame_buffer_)) := by
    intro s0 h1 h2
    rcases probe_effect g s0 t with h | ⟨p, hp, h⟩ | ⟨p, hp, h⟩
    · left
      rw [h]
      exact ⟨h1, h2⟩
    · right; left
      rw [h1] at hp
      refine ⟨p, hp, ?_, ?_⟩
      · rw [h]
        simp only [claimSlot, h1]
      · rw [h]
        simp only [claimSlot, h2]
    · right; right
      rw [h1] at hp
      refine ⟨p, hp, ?_, ?_⟩
      · rw [h]
        simp only [incrementSlot, h1]
      · rw [h]
        exact h2
  unfold Handle
  split
  · left
    exact ⟨rfl, rfl⟩
  · split
    · simp only
      split
      · left
        exact ⟨rfl, rfl⟩
      · exact key _ rfl rfl
    · exact key s rfl rfl

/-- C17: for every invocation of the handler in a reachable state (on an
unattached thread, or on an attached thread with a capture result above the
least `jint` and at most `kMaxFramesToCapture`), every slot that was occupied
keeps its `num_frames`, its `trace.frames` and its row of `frame_buffer_`; no
count decreases; no occupied slot becomes free; and there is a slot `p` outside
of which no count changes, while the count of `p` stays or grows by exactly 1. -/
theorem slots_write_once (g : Globals) (s : Profiler) (env : Bool) (t : JVMPI_CallTrace)
    (hs : Reachable g s)
    (hval : env = true →
      -2 ^ 31 < t.num_frames ∧ t.num_frames ≤ (g.kMaxFramesToCapture : Int)) :
    (∀ i, 0 < (s.traces_ i).count →
      ((Handle g s env t).1.traces_ i).num_frames = (s.traces_ i).num_frames ∧
      ((Handle g s env t).1.traces_ i).frames = (s.traces_ i).frames ∧
      (Handle g s env t).1.frame_buffer_ i = s.frame_buffer_ i) ∧
    (∀ i, (s.traces_ i).count ≤ ((Handle g s env t).1.traces_ i).count) ∧
    (∀ i, 0 < (s.traces_ i).count → 0 < ((Handle g s env t).1.traces_ i).count) ∧
    ∃ p, (∀ i, i ≠ p → ((Handle g s env t).1.traces_ i).count = (s.traces_ i).count) ∧
      (((Handle g s env t).1.traces_ p).count = (s.traces_ p).count ∨
        ((Handle g s env t).1.traces_ p).count = (s.traces_ p).count + 1) := by
  have hB := Reachable_Basic g s hs
  rcases Handle_effect g s env t with ⟨h1, h2⟩ | ⟨p, hp, h1, h2⟩ | ⟨p, hp, h1, h2⟩
  · rw [h1, h2]
    exact ⟨fun i _ => ⟨rfl, rfl, rfl⟩, fun i => le_refl _, fun i h => h,
      0, fun i _ => rfl, Or.inl rfl⟩
  · rw [h1, h2]
    have hne : ∀ i, 0 < (s.traces_ i).count → i ≠ p := by
      intro i hi hip
      rw [hip, hp] at hi
      exact absurd hi (by decide)
    refine ⟨?_, ?_, ?_, p, ?_, ?_⟩
    · intro i hi
      simp [claimSlot, Function.update_noteq (hne i hi)]
    · intro i
      by_cases hip : i = p
      · subst hip
        simp [claimSlot, hp, swap_of_free]
      · simp [claimSlot, Function.update_noteq hip]
    · intro i hi
      simpa [claimSlot, Function.update_noteq (hne i hi)] using hi
    · intro i hip
      simp [claimSlot, Function.update_noteq hip]
    · right
      simp [claimSlot, hp, swap_of_free]
  · rw [h1, h2]
    refine ⟨?_, ?_, ?_, p, ?_, ?_⟩
    · intro i _
      by_cases hip : i = p
      · subst hip
        simp [incrementSlot]
      · simp [incrementSlot, Function.update_noteq hip]
    · intro i
      by_cases hip : i = p
      · subst hip
        simp [incrementSlot, NoBarrier_AtomicIncrement]
      · simp [incrementSlot, Function.update_noteq hip]
    · intro i hi
      by_cases hip : i = p
      · subst hip
        simp only [incrementSlot, Function.update_same, NoBarrier_AtomicIncrement]
        omega
      · simpa [incrementSlot, Function.update_noteq hip] using hi
    · intro i hip
      simp [incrementSlot, Function.update_noteq hip]
    · right
      simp [incrementSlot, NoBarrier_AtomicIncrement]

theorem slots_write_once_witness :
    (∀ i, 0 < ((run g4 (Start true true).1 (attached [traceA, traceB])).traces_ i).count →
      ((Handle g4 (run g4 (Start true true).1 (attached [traceA, traceB])) true
        traceA).1.traces_ i).num_frames
        = ((run g4 (Start true true).1 (attached [traceA, traceB])).traces_ i).num_frames ∧
      ((Handle g4 (run g4 (Start true true).1 (attached [traceA, traceB])) true
        traceA).1.traces_ i).frames
        = ((run g4 (Start true true).1 (attached [traceA, traceB])).traces_ i).frames ∧
      (Handle g4 (run g4 (Start true true).1 (attached [traceA, traceB])) true
        traceA).1.frame_buffer_ i
        = (run g4 (Start true true).1 (attached [traceA, traceB])).frame_buffer_ i) ∧
    (∀ i, ((run g4 (Start true true).1 (attached [traceA, traceB])).traces_ i).count
      ≤ ((Handle g4 (run g4 (Start true true).1 (attached [traceA, traceB])) true
        traceA).1.traces_ i).count) ∧
    (∀ i, 0 < ((run g4 (Start true true).1 (attached [traceA, traceB])).traces_ i).count →
      0 < ((Handle g4 (run g4 (Start true true).1 (attached [traceA, traceB])) true
        traceA).1.traces_ i).count) ∧
    ∃ p, (∀ i, i ≠ p →
        ((Handle g4 (run g4 (Start true true).1 (attached [traceA, traceB])) true
          traceA).1.traces_ i).count
          = ((run g4 (Start true true).1 (attached [traceA, traceB])).traces_ i).count) ∧
      (((Handle g4 (run g4 (Start true true).1 (attached [traceA, traceB])) true
          traceA).1.traces_ p).count
          = ((run g4 (Start true true).1 (attached [traceA, traceB])).traces_ p).count ∨
        ((Handle g4 (run g4 (Start true true).1 (attached [traceA, traceB])) true
          traceA).1.traces_ p).count
          = ((run g4 (Start true true).1 (attached [traceA, traceB])).traces_ p).count + 1) :=
  slots_write_once g4 (run g4 (Start true true).1 (attached [traceA, traceB])) true traceA
    (Reachable_run g4 [traceA, traceB] _ (Reachable.start true true)
      (by
        intro t ht
        simp only [List.mem_cons, List.mem_singleton, List.not_mem_nil, or_false] at ht
        rcases ht with rfl | rfl <;> exact ⟨by decide, by decide, by decide⟩))
    (fun _ => ⟨by decide, by decide⟩)

/-! ## Bounds of the probing loop -/

theorem probeVisits_eq (g : Globals) (s : Profiler) (t : JVMPI_CallTrace) (idx : Nat) :
    ∀ fuel k, fuel + k = g.kMaxStackTraces →
      ∃ len, k + len ≤ g.kMaxStackTraces ∧
        probeVisits g s t idx fuel ((idx + k) % g.kMaxStackTraces)
          = (List.range' k len).map (fun n => (idx + n) % g.kMaxStackTraces) := by
  intro fuel
  induction fuel with
  | zero => intro k hk; exact ⟨0, by omega, rfl⟩
  | succ f ih =>
    intro k hk
    rw [probeVisits]
    have hone : ∃ len, k + len ≤ g.kMaxStackTraces ∧
        [(idx + k) % g.kMaxStackTraces]
          = (List.range' k len).map (fun n => (idx + n) % g.kMaxStackTraces) :=
      ⟨1, by omega, rfl⟩
    cases slotTest g s t ((idx + k) % g.kMaxStackTraces)
    · exact hone
    · exact hone
    · exact hone
    · simp only [pos_succ]
      split
      · exact hone
      · obtain ⟨len, hlen, hv⟩ := ih (k + 1) (by omega)
        refine ⟨len + 1, by omega, ?_⟩
        rw [hv]
        rfl

theorem probeLoop_in_visits (g : Globals) (s : Profiler) (t : JVMPI_CallTrace) (idx : Nat) :
    ∀ fuel i p,
      ((probeLoop g s t idx fuel i).2 = Outcome.inserted p ∨
        (probeLoop g s t idx fuel i).2 = Outcome.aggregated p ∨
        (probeLoop g s t idx fuel i).2 = Outcome.nullFrames p) →
      p ∈ probeVisits g s t idx fuel i := by
  intro fuel
  induction fuel with
  | zero =>
    intro i p h
    simp [probeLoop] at h
  | succ f ih =>
    intro i p h
    rw [probeLoop] at h
    rw [probeVisits]
    cases hc : slotTest g s t i <;> rw [hc] at h <;> simp only at h ⊢
    · simp only [List.mem_singleton]
      rcases h with h | h | h
      · exact (Outcome.inserted.inj h).symm
      · cases h
      · cases h
    · simp only [List.mem_singleton]
      rcases h with h | h | h
      · cases h
      · cases h
      · exact (Outcome.nullFrames.inj h).symm
    · simp only [List.mem_singleton]
      rcases h with h | h | h
      · cases h
      · exact (Outcome.aggregated.inj h).symm
      · cases h
    · split
      · rename_i he
        rw [if_pos he] at h
        simp at h
      · rename_i he
        rw [if_neg he] at h
        exact List.mem_cons_of_mem _ (ih _ p h)

/-- The loop started by `probe` leaves through one of its exits before its
bound is used up; it examines at most `kMaxStackTraces` slots, no slot twice,
and every slot it examines, among them the slot it claims or increments, has
an index below `kMaxStackTraces`. This holds in every state of the tables. -/
theorem probe_bounded (g : Globals) (s : Profiler) (t : JVMPI_CallTrace)
    (hcap : 0 < g.kMaxStackTraces) :
    (probe g s t).2 ≠ Outcome.outOfFuel ∧
    (probeVisits g s t (startSlot g t) g.kMaxStackTraces (startSlot g t)).length
      ≤ g.kMaxStackTraces ∧
    (probeVisits g s t (startSlot g t) g.kMaxStackTraces (startSlot g t)).Nodup ∧
    (∀ i ∈ probeVisits g s t (startSlot g t) g.kMaxStackTraces (startSlot g t),
      i < g.kMaxStackTraces) ∧
    ∀ p, ((probe g s t).2 = Outcome.inserted p ∨ (probe g s t).2 = Outcome.aggregated p ∨
        (probe g s t).2 = Outcome.nullFrames p) →
      p ∈ probeVisits g s t (startSlot g t) g.kMaxStackTraces (startSlot g t) := by
  have hi : startSlot g t < g.kMaxStackTraces := Nat.mod_lt _ hcap
  obtain ⟨len, hlen, hv⟩ := probeVisits_eq g s t (startSlot g t) g.kMaxStackTraces 0 (by omega)
  rw [Nat.add_zero, Nat.mod_eq_of_lt hi] at hv
  refine ⟨?_, ?_, ?_, ?_, ?_⟩
  · rcases probe_cases g s t hcap with h | ⟨m, _, _, _, hp⟩
    · rw [h.2]
      simp
    · rw [hp, stopAt]
      cases slotTest g s t ((startSlot g t + m) % g.kMaxStackTraces) <;> simp
  · rw [hv]
    simp only [List.length_map, List.length_range']
    omega
  · rw [hv]
    apply List.Nodup.map_on
    · intro a ha b hb hab
      have ha2 := (List.mem_range'_1.mp ha).2
      have hb2 := (List.mem_range'_1.mp hb).2
      exact pos_inj hi (by omega) (by omega) hab
    · exact List.nodup_range' _ _
  · intro i hi2
    rw [hv] at hi2
    obtain ⟨n, _, rfl⟩ := List.mem_map.mp hi2
    exact Nat.mod_lt _ hcap
  · intro p hp
    exact probeLoop_in_visits g s t _ _ _ p hp

/-- The slots that the loop examines are the first `len` slots of the probing
sequence; all of them but the last test as `other`, and the result of the loop
is what the last of them gives. -/
theorem probeLoop_trace (g : Globals) (s : Profiler) (t : JVMPI_CallTrace) (idx : Nat)
    (hi : idx < g.kMaxStackTraces) :
    ∀ fuel k, fuel + k = g.kMaxStackTraces → 0 < fuel →
      ∃ len, 1 ≤ len ∧ k + len ≤ g.kMaxStackTraces ∧
        probeVisits g s t idx fuel ((idx + k) % g.kMaxStackTraces)
          = (List.range' k len).map (fun n => (idx + n) % g.kMaxStackTraces) ∧
        (∀ n, k ≤ n → n + 1 < k + len →
          slotTest g s t ((idx + n) % g.kMaxStackTraces) = SlotTest.other) ∧
        probeLoop g s t idx fuel ((idx + k) % g.kMaxStackTraces)
          = stopAt g s t ((idx + (k + len - 1)) % g.kMaxStackTraces) := by
  intro fuel
  induction fuel with
  | zero => intro k _ h; omega
  | succ f ih =>
    intro k hk _
    rw [probeVisits, probeLoop]
    have hone : ∀ r : Profiler × Outcome,
        r = stopAt g s t ((idx + k) % g.kMaxStackTraces) →
        ∃ len, 1 ≤ len ∧ k + len ≤ g.kMaxStackTraces ∧
          [(idx + k) % g.kMaxStackTraces]
            = (List.range' k len).map (fun n => (idx + n) % g.kMaxStackTraces) ∧
          (∀ n, k ≤ n → n + 1 < k + len →
            slotTest g s t ((idx + n) % g.kMaxStackTraces) = SlotTest.other) ∧
          r = stopAt g s t ((idx + (k + len - 1)) % g.kMaxStackTraces) := by
      intro r hr
      refine ⟨1, le_refl _, by omega, rfl, fun n h1 h2 => by omega, ?_⟩
      rw [hr]
      simp
    cases hc : slotTest g s t ((idx + k) % g.kMaxStackTraces)
    · exact hone _ (by rw [stopAt, hc])
    · exact hone _ (by rw [stopAt, hc])
    · exact hone _ (by rw [stopAt, hc])
    · simp only [pos_succ]
      split
      · exact hone _ (by rw [stopAt, hc])
      · rename_i hne
        have hf : 0 < f := by
          rcases Nat.eq_zero_or_pos f with h0 | h0
          · exfalso
            apply hne
            have : k + 1 = g.kMaxStackTraces := by omega
            rw [this, pos_full hi]
          · exact h0
        obtain ⟨len, hlen1, hlen2, hv, hother, hres⟩ := ih (k + 1) (by omega) hf
        refine ⟨len + 1, by omega, by omega, ?_, ?_, ?_⟩
        · rw [hv]
          rfl
        · intro n h1 h2
          rcases Nat.eq_or_lt_of_le h1 with h | h
          · rw [← h]
            exact hc
          · exact hother n (by omega) (by omega)
        · rw [hres]
          congr 2
          omega

theorem Handle_failures_by_index (g : Globals) (s : Profiler) (env : Bool)
    (t : JVMPI_CallTrace) :
    (failureIndexUsed g env t = none → (Handle g s env t).1.failures_ = s.failures_) ∧
    ∀ idx, failureIndexUsed g env t = some idx →
      (Handle g s env t).1.failures_ = (bumpFailure s idx.toNat).failures_ := by
  unfold failureIndexUsed Handle
  split
  · refine ⟨fun h => (by cases h), fun idx h => ?_⟩
    simp only [Option.some.injEq] at h
    rw [← h]
    rfl
  · split
    · simp only
      split
      · exact ⟨fun _ => rfl, fun idx h => by cases h⟩
      · refine ⟨fun h => (by cases h), fun idx h => ?_⟩
        simp only [Option.some.injEq] at h
        rw [← h, probe_failures]
    · exact ⟨fun _ => probe_failures g s t, fun idx h => by cases h⟩

/-- Every index that an invocation uses into `failures_` lies between 0 and
`kNumCallTraceErrors`. -/
theorem failure_index_in_range (g : Globals) (env : Bool) (t : JVMPI_CallTrace) (idx : Int)
    (h : failureIndexUsed g env t = some idx) :
    0 ≤ idx ∧ idx ≤ (g.kNumCallTraceErrors : Int) := by
  unfold failureIndexUsed at h
  split at h
  · simp only [Option.some.injEq] at h
    omega
  · split at h
    · split at h
      · cases h
      · simp only [Option.some.injEq] at h
        omega
    · cases h

/-- C15: in every state of the tables and for every capture result, the
probing loop of the handler leaves through one of its exits (it does not use
up its bound); the slots it examines are the first `len` slots of the cyclic
order from the start slot, with `len` at most `kMaxStackTraces`, so it
examines at most `kMaxStackTraces` slots and no slot twice; every slot index it
uses into `traces_` and `frame_buffer_`, among them the slot it claims or
increments, is below `kMaxStackTraces`; and every index with which the handler
executes `failures_[...]++` lies from 0 to `kNumCallTraceErrors`, that
statement being the only change of `failures_`. -/
theorem probe_bounded_in_range (g : Globals) (s : Profiler) (t : JVMPI_CallTrace)
    (hcap : 0 < g.kMaxStackTraces) :
    (probe g s t).2 ≠ Outcome.outOfFuel ∧
    (∃ len, 1 ≤ len ∧ len ≤ g.kMaxStackTraces ∧
      probeVisits g s t (startSlot g t) g.kMaxStackTraces (startSlot g t)
        = (List.range len).map (fun n => (startSlot g t + n) % g.kMaxStackTraces) ∧
      (∀ n, n + 1 < len →
        slotTest g s t ((startSlot g t + n) % g.kMaxStackTraces) = SlotTest.other) ∧
      probe g s t = stopAt g s t ((startSlot g t + (len - 1)) % g.kMaxStackTraces)) ∧
    (probeVisits g s t (startSlot g t) g.kMaxStackTraces (startSlot g t)).length
      ≤ g.kMaxStackTraces ∧
    (probeVisits g s t (startSlot g t) g.kMaxStackTraces (startSlot g t)).Nodup ∧
    (∀ i ∈ probeVisits g s t (startSlot g t) g.kMaxStackTraces (startSlot g t),
      i < g.kMaxStackTraces) ∧
    (∀ p, ((probe g s t).2 = Outcome.inserted p ∨ (probe g s t).2 = Outcome.aggregated p ∨
        (probe g s t).2 = Outcome.nullFrames p) →
      p ∈ probeVisits g s t (startSlot g t) g.kMaxStackTraces (startSlot g t)) ∧
    (∀ env idx, failureIndexUsed g env t = some idx →
      0 ≤ idx ∧ idx ≤ (g.kNumCallTraceErrors : Int) ∧
        (Handle g s env t).1.failures_ = (bumpFailure s idx.toNat).failures_) ∧
    ∀ env, failureIndexUsed g env t = none → (Handle g s env t).1.failures_ = s.failures_ := by
  obtain ⟨h1, h2, h3, h4, h5⟩ := probe_bounded g s t hcap
  have hi : startSlot g t < g.kMaxStackTraces := Nat.mod_lt _ hcap
  refine ⟨h1, ?_, h2, h3, h4, h5, ?_, ?_⟩
  · obtain ⟨len, hl1, hl2, hv, hother, hres⟩ :=
      probeLoop_trace g s t (startSlot g t) hi g.kMaxStackTraces 0 (by omega) hcap
    rw [Nat.add_zero, Nat.mod_eq_of_lt hi] at hv hres
    refine ⟨len, hl1, by omega, ?_, ?_, ?_⟩
    · rw [hv, List.range_eq_range']
    · intro n hn
      exact hother n (Nat.zero_le _) (by omega)
    · rw [Nat.zero_add] at hres
      exact hres
  · intro env idx h
    have := failure_index_in_range g env t idx h
    exact ⟨this.1, this.2, (Handle_failures_by_index g s env t).2 idx h⟩
  · intro env h
    exact (Handle_failures_by_index g s env t).1 h

theorem probe_bounded_in_range_witness :
    0 < g4.kMaxStackTraces ∧
    (probe g4 (run g4 (Start true true).1 (attached [traceA, traceB, traceD])) traceE).2
      = Outcome.inserted 3 ∧
    probeVisits g4 (run g4 (Start true true).1 (attached [traceA, traceB, traceD])) traceE
        (startSlot g4 traceE) g4.kMaxStackTraces (startSlot g4 traceE) = [0, 1, 2, 3] ∧
    failureIndexUsed g4 true ⟨-3, fun _ => zeroFrame⟩ = some 3 ∧
    ((probe g4 (run g4 (Start true true).1 (attached [traceA, traceB, traceD])) traceE).2
        ≠ Outcome.outOfFuel ∧
      (probeVisits g4 (run g4 (Start true true).1 (attached [traceA, traceB, traceD])) traceE
        (startSlot g4 traceE) g4.kMaxStackTraces (startSlot g4 traceE)).length
        ≤ g4.kMaxStackTraces ∧
      (probeVisits g4 (run g4 (Start true true).1 (attached [traceA, traceB, traceD])) traceE
        (startSlot g4 traceE) g4.kMaxStackTraces (startSlot g4 traceE)).Nodup ∧
      ∀ i ∈ probeVisits g4 (run g4 (Start true true).1 (attached [traceA, traceB, traceD]))
          traceE (startSlot g4 traceE) g4.kMaxStackTraces (startSlot g4 traceE),
        i < g4.kMaxStackTraces) ∧
    (0 ≤ (3 : Int) ∧ (3 : Int) ≤ (g4.kNumCallTraceErrors : Int) ∧
      (Handle g4 cleared true ⟨-3, fun _ => zeroFrame⟩).1.failures_
        = (bumpFailure cleared (3 : Int).toNat).failures_) :=
  ⟨by decide, by decide, by decide, by decide,
    ⟨(probe_bounded_in_range g4 (run g4 (Start true true).1 (attached [traceA, traceB, traceD]))
        traceE (by decide)).1,
      (probe_bounded_in_range g4 (run g4 (Start true true).1 (attached [traceA, traceB, traceD]))
        traceE (by decide)).2.2.1,
      (probe_bounded_in_range g4 (run g4 (Start true true).1 (attached [traceA, traceB, traceD]))
        traceE (by decide)).2.2.2.1,
      (probe_bounded_in_range g4 (run g4 (Start true true).1 (attached [traceA, traceB, traceD]))
        traceE (by decide)).2.2.2.2.1⟩,
    (probe_bounded_in_range g4 cleared ⟨-3, fun _ => zeroFrame⟩ (by decide)).2.2.2.2.2.2.1
      true 3 (by decide)⟩

/-! ## The hash -/

theorem mixShift_lt (k r h : Nat) : mixShift k r h < 2 ^ 64 := by
  unfold mixShift
  have h1 : u64 (h + u64 (h <<< k)) < 2 ^ 64 := Nat.mod_lt _ (by decide)
  apply Nat.xor_lt_two_pow h1
  rw [Nat.shiftRight_eq_div_pow]
  exact lt_of_le_of_lt (Nat.div_le_self _ _) h1

theorem CalculateHash_eq_hashFold (t : JVMPI_CallTrace) :
    CalculateHash t 0 = hashFold (frameSequence t) := by
  simp only [CalculateHash, hashFold, frameSequence, List.drop_zero, List.foldl_map, hashStep,
    mixShift, u64, uintptrOfJint]

/-- C13: two traces with the same `num_frames` whose frames below `num_frames`
agree in method id and line number have the same `CalculateHash(trace, 0)`,
whatever their arrays hold from index `num_frames` on; the value is the
shift/add/xor fold over the first `num_frames` frames, and it is below
`2 ^ 64`. -/
theorem hash_depends_on_frames_only (t u : JVMPI_CallTrace)
    (hn : t.num_frames = u.num_frames)
    (hf : ∀ k : Nat, (k : Int) < t.num_frames →
      (t.frames k).method_id = (u.frames k).method_id ∧
        (t.frames k).lineno = (u.frames k).lineno) :
    CalculateHash t 0 = CalculateHash u 0 ∧
    CalculateHash t 0 = hashFold (frameSequence t) ∧
    CalculateHash t 0 < 2 ^ 64 := by
  refine ⟨?_, CalculateHash_eq_hashFold t, ?_⟩
  · exact CalculateHash_congr t u 0 hn (fun k hk => (frame_eq_iff _ _).mpr (hf k hk))
  · unfold CalculateHash
    exact mixShift_lt _ _ _

theorem hash_depends_on_frames_only_witness :
    CalculateHash traceF 0 = CalculateHash traceG 0 ∧
    CalculateHash traceF 0 = hashFold (frameSequence traceF) ∧
    CalculateHash traceF 0 < 2 ^ 64 :=
  hash_depends_on_frames_only traceF traceG (by decide)
    (fun k hk => by
      have h1 : (k : Int) < 1 := hk
      have h0 : k = 0 := by omega
      subst h0
      decide)

/-! ## The order of the dump -/

theorem CompareTraceData_le_iff (a b : TraceData) :
    CompareTraceData a b ≤ 0 ↔ a.count ≤ b.count := by
  unfold CompareTraceData
  split
  · constructor <;> intro h <;> omega
  · split
    · constructor <;> intro h <;> omega
    · constructor <;> intro h <;> omega

/-- Every order of the array in which the comparator, applied to an element
and a later one, is at most 0 has ascending counts. -/
theorem ascending_of_compar (l : List TraceData)
    (h : l.Pairwise (fun a b => CompareTraceData a b ≤ 0)) (i : Nat) (hi : i + 1 < l.length) :
    (l.getD i ⟨0, 0, none⟩).count ≤ (l.getD (i + 1) ⟨0, 0, none⟩).count := by
  have h1 := List.pairwise_iff_getElem.mp h i (i + 1) (by omega) hi (by omega)
  rw [CompareTraceData_le_iff] at h1
  rw [List.getD_eq_getElem _ _ (by omega : i < l.length), List.getD_eq_getElem _ _ hi]
  exact h1

theorem sortedTraces_sorted (g : Globals) (s : Profiler) :
    (sortedTraces g s).Pairwise (fun a b => CompareTraceData a b ≤ 0) := by
  haveI : IsTotal TraceData (fun a b => CompareTraceData a b ≤ 0) :=
    ⟨fun a b => by
      simp only [CompareTraceData_le_iff]
      exact le_total _ _⟩
  haveI : IsTrans TraceData (fun a b => CompareTraceData a b ≤ 0) :=
    ⟨fun a b c => by
      simp only [CompareTraceData_le_iff]
      exact le_trans⟩
  exact List.sorted_insertionSort _ _

/-- C11: after the sort of `Profiler::DumpToFile`, the counts at adjacent
positions `i`, `i + 1` of `traces_` are in ascending order, whatever the table
held before; the sorted array has the `kMaxStackTraces` elements of the table,
in another order; and `CompareTraceData` returns 1, -1 or 0 as the first count
is greater than, less than or equal to the second. -/
theorem dump_order_ascending (g : Globals) (s : Profiler) (i : Nat)
    (hi : i + 1 < g.kMaxStackTraces) :
    ((sortedTraces g s).getD i ⟨0, 0, none⟩).count
      ≤ ((sortedTraces g s).getD (i + 1) ⟨0, 0, none⟩).count ∧
    (sortedTraces g s).length = g.kMaxStackTraces ∧
    (sortedTraces g s).Perm (tracesList g s) ∧
    ∀ a b : TraceData,
      (b.count < a.count → CompareTraceData a b = 1) ∧
      (a.count < b.count → CompareTraceData a b = -1) ∧
      (a.count = b.count → CompareTraceData a b = 0) := by
  have hlen : (sortedTraces g s).length = g.kMaxStackTraces := by
    simp [sortedTraces, qsort, tracesList, List.length_insertionSort]
  refine ⟨?_, hlen, List.perm_insertionSort _ _, ?_⟩
  · exact ascending_of_compar _ (sortedTraces_sorted g s) i (by rw [hlen]; exact hi)
  · intro a b
    unfold CompareTraceData
    refine ⟨fun h => ?_, fun h => ?_, fun h => ?_⟩
    · rw [if_pos h]
    · rw [if_neg (by omega), if_pos h]
    · rw [if_neg (by omega), if_neg (by omega)]

theorem dump_order_ascending_witness :
    ((sortedTraces g4 (run g4 (Start true true).1 (attached [traceA, traceB, traceA]))).getD 2
        ⟨0, 0, none⟩).count
      ≤ ((sortedTraces g4 (run g4 (Start true true).1 (attached [traceA, traceB, traceA]))).getD
        (2 + 1) ⟨0, 0, none⟩).count ∧
    (sortedTraces g4 (run g4 (Start true true).1 (attached [traceA, traceB, traceA]))).length
      = g4.kMaxStackTraces ∧
    (sortedTraces g4 (run g4 (Start true true).1 (attached [traceA, traceB, traceA]))).Perm
      (tracesList g4 (run g4 (Start true true).1 (attached [traceA, traceB, traceA]))) ∧
    ∀ a b : TraceData,
      (b.count < a.count → CompareTraceData a b = 1) ∧
      (a.count < b.count → CompareTraceData a b = -1) ∧
      (a.count = b.count → CompareTraceData a b = 0) :=
  dump_order_ascending g4 (run g4 (Start true true).1 (attached [traceA, traceB, traceA])) 2
    (by decide)

/-! ## The failure counter with index 0 -/

theorem Handle_failures_cases (g : Globals) (s : Profiler) (env : Bool) (t : JVMPI_CallTrace) :
    (env = true ∧ (Handle g s env t).1.failures_ = s.failures_) ∨
      (env = false ∧ (Handle g s env t).1.failures_ = (bumpFailure s 0).failures_) ∨
      (env = true ∧ ∃ R : Nat, 1 ≤ R ∧ R ≤ g.kNumCallTraceErrors ∧
        (Handle g s env t).1.failures_ = (bumpFailure s R).failures_) := by
  unfold Handle
  split
  · rename_i he
    right; left
    exact ⟨he, rfl⟩
  · rename_i he
    have he2 : env = true := by simpa using he
    split
    · rename_i hneg
      simp only
      split
      · left
        exact ⟨he2, rfl⟩
      · rename_i hle
        right; right
        refine ⟨he2, (-t.num_frames).toNat, by omega, by omega, ?_⟩
        rw [probe_failures]
    · left
      exact ⟨he2, probe_failures g s t⟩

theorem run_failures_zero (g : Globals) :
    ∀ (l : List (Bool × JVMPI_CallTrace)) (s : Profiler),
      wrapInt32 (s.failures_ 0) = s.failures_ 0 →
      (run g s l).failures_ 0
          = wrapInt32 (s.failures_ 0 + (l.filter (fun x => !x.1)).length) ∧
      ∀ k, g.kNumCallTraceErrors < k → (run g s l).failures_ k = s.failures_ k := by
  intro l
  induction l with
  | nil => intro s hs; simp [run, hs]
  | cons x l ih =>
    intro s hs
    have hrun : run g s (x :: l) = run g (Handle g s x.1 x.2).1 l := rfl
    rw [hrun]
    rcases Handle_failures_cases g s x.1 x.2 with
      ⟨he, h⟩ | ⟨he, h⟩ | ⟨he, R, hR1, hR2, h⟩
    · obtain ⟨h1, h2⟩ := ih (Handle g s x.1 x.2).1 (by rw [h]; exact hs)
      refine ⟨?_, ?_⟩
      · rw [h1, h]
        simp [List.filter_cons, he]
      · intro k hk
        rw [h2 k hk, h]
    · have h0 : (Handle g s x.1 x.2).1.failures_ 0 = wrapInt32 (s.failures_ 0 + 1) := by
        rw [h]
        simp [bumpFailure]
      obtain ⟨h1, h2⟩ := ih (Handle g s x.1 x.2).1 (by rw [h0, wrapInt32_idem])
      refine ⟨?_, ?_⟩
      · rw [h1, h0, wrapInt32_add]
        congr 1
        simp only [List.filter_cons, he, Bool.not_false, if_true, List.length_cons]
        push_cast
        ring
      · intro k hk
        rw [h2 k hk, h]
        simp only [bumpFailure]
        rw [Function.update_noteq (by omega)]
    · have h0 : (Handle g s x.1 x.2).1.failures_ 0 = s.failures_ 0 := by
        rw [h]
        simp only [bumpFailure]
        rw [Function.update_noteq (by omega)]
      obtain ⟨h1, h2⟩ := ih (Handle g s x.1 x.2).1 (by rw [h0]; exact hs)
      refine ⟨?_, ?_⟩
      · rw [h1, h0]
        simp [List.filter_cons, he]
      · intro k hk
        rw [h2 k hk, h]
        simp only [bumpFailure]
        rw [Function.update_noteq (by omega)]

/-- C18 (counterexample): one invocation on an unattached thread after `Start`
leaves `failures_[0] = 1`, so index 0 is modified. -/
theorem index_zero_is_incremented :
    (run g4 (Start true true).1 [(false, traceD)]).failures_ 0 = 1 ∧
    (run g4 (Start true true).1 [(false, traceD)]).failures_ 0 ≠ 0 := by
  decide

/-- C18 (amended): `failures_[0]` counts the invocations on unattached threads.
After `Start` and any sequence of invocations (attached or unattached thread,
any capture result) of which at most 2147483647 run on an unattached thread,
`failures_[0]` equals the number of invocations on unattached threads in the
sequence, and every element of `failures_` with an index above
`kNumCallTraceErrors` is still 0. In every state, an invocation on an attached
thread leaves `failures_[0]` as it was and changes at most one element of
`failures_`: either it leaves all of `failures_` as it was, or there is one
index `R` from 1 to `kNumCallTraceErrors` on which it executes
`failures_[R]++` while every other element stays as it was. -/
theorem index_zero_counts_unattached (g : Globals) (a b : Bool)
    (l : List (Bool × JVMPI_CallTrace)) (s : Profiler) (t : JVMPI_CallTrace)
    (hN : (l.filter (fun x => !x.1)).length ≤ 2147483647) :
    (run g (Start a b).1 l).failures_ 0 = (l.filter (fun x => !x.1)).length ∧
    (∀ k, g.kNumCallTraceErrors < k → (run g (Start a b).1 l).failures_ k = 0) ∧
    (Handle g s true t).1.failures_ 0 = s.failures_ 0 ∧
    ((Handle g s true t).1.failures_ = s.failures_ ∨
      ∃ R : Nat, 1 ≤ R ∧ R ≤ g.kNumCallTraceErrors ∧
        (Handle g s true t).1.failures_ R = wrapInt32 (s.failures_ R + 1) ∧
        ∀ k, k ≠ R → (Handle g s true t).1.failures_ k = s.failures_ k) := by
  obtain ⟨h1, h2⟩ := run_failures_zero g l (Start a b).1 (by show wrapInt32 0 = 0; decide)
  refine ⟨?_, ?_, ?_, ?_⟩
  · rw [h1]
    have h0 : (Start a b).1.failures_ 0 = 0 := rfl
    rw [h0, Int.zero_add]
    exact wrapInt32_of_range _ (by omega) (by omega)
  · intro k hk
    rw [h2 k hk]
    rfl
  · rcases Handle_failures_cases g s true t with ⟨_, h⟩ | ⟨he, _⟩ | ⟨_, R, hR1, _, h⟩
    · rw [h]
    · cases he
    · rw [h]
      simp only [bumpFailure]
      rw [Function.update_noteq (by omega)]
  · rcases Handle_failures_cases g s true t with ⟨_, h⟩ | ⟨he, _⟩ | ⟨_, R, hR1, hR2, h⟩
    · left
      exact h
    · cases he
    · right
      refine ⟨R, hR1, hR2, ?_, ?_⟩
      · rw [h]
        simp [bumpFailure]
      · intro k hk
        rw [h]
        simp only [bumpFailure]
        rw [Function.update_noteq hk]

theorem index_zero_counts_unattached_witness :
    ([(false, traceD), (true, traceA), (true, (⟨-3, fun _ => zeroFrame⟩ : JVMPI_CallTrace)),
        (false, traceD)].filter (fun x => !x.1)).length ≤ 2147483647 ∧
    (run g4 (Start true true).1
      [(false, traceD), (true, traceA), (true, ⟨-3, fun _ => zeroFrame⟩),
        (false, traceD)]).failures_ 0
      = ([(false, traceD), (true, traceA), (true, (⟨-3, fun _ => zeroFrame⟩ : JVMPI_CallTrace)),
        (false, traceD)].filter (fun x => !x.1)).length ∧
    (∀ k, g4.kNumCallTraceErrors < k →
      (run g4 (Start true true).1
        [(false, traceD), (true, traceA), (true, ⟨-3, fun _ => zeroFrame⟩),
          (false, traceD)]).failures_ k = 0) ∧
    (Handle g4 cleared true ⟨-3, fun _ => zeroFrame⟩).1.failures_ 0 = cleared.failures_ 0 ∧
    ((Handle g4 cleared true ⟨-3, fun _ => zeroFrame⟩).1.failures_ = cleared.failures_ ∨
      ∃ R : Nat, 1 ≤ R ∧ R ≤ g4.kNumCallTraceErrors ∧
        (Handle g4 cleared true ⟨-3, fun _ => zeroFrame⟩).1.failures_ R
          = wrapInt32 (cleared.failures_ R + 1) ∧
        ∀ k, k ≠ R →
          (Handle g4 cleared true ⟨-3, fun _ => zeroFrame⟩).1.failures_ k
            = cleared.failures_ k) :=
  ⟨by decide,
    index_zero_counts_unattached g4 true true
      [(false, traceD), (true, traceA), (true, ⟨-3, fun _ => zeroFrame⟩), (false, traceD)]
      cleared ⟨-3, fun _ => zeroFrame⟩ (by decide)⟩

/-! ## The result of `Start` -/

/-- C19 (evaluation of the code): when the installation of the SIGPROF action
fails and `setitimer` succeeds (returns 0), `Profiler::Start` returns `true`:
the result of `Start` is the result of `SetSigprofInterval` alone. -/
theorem Start_ignores_failed_action :
    (Start false (SetSigprofInterval 0)).2 = true ∧
    ∀ setActionOk setSigprofIntervalOk : Bool,
      (Start setActionOk setSigprofIntervalOk).2 = setSigprofIntervalOk := by
  exact ⟨rfl, fun _ _ => rfl⟩

/-! ## Concurrent increments of a failure counter -/

/-- C20 (evaluation of the code): two invocations that fail with reason code 1
at the same time, each executing `failures_[1]++` after `Start`. When both
load the counter before either stores, both store 1: both invocations are
through and `failures_[1]` is 1, one increment is lost. When the second starts
after the first is through, `failures_[1]` is 2. -/
theorem concurrent_failure_increment_lost :
    (interleave 1 (cleared.failures_, fun _ => IncrementPc.before) [0, 1, 0, 1]).1 1 = 1 ∧
    (interleave 1 (cleared.failures_, fun _ => IncrementPc.before) [0, 1, 0, 1]).2 0
      = IncrementPc.after ∧
    (interleave 1 (cleared.failures_, fun _ => IncrementPc.before) [0, 1, 0, 1]).2 1
      = IncrementPc.after ∧
    (interleave 1 (cleared.failures_, fun _ => IncrementPc.before) [0, 0, 1, 1]).1 1 = 2 := by
  decide

end LJP
